import Mathlib

/-!
The OSS -> ALSA interception layer of `alsa-oss.c`.

A shallow embedding of `src/alsa/alsa-oss.c`: the descriptor table `fds`, the
class dispatch table `ops`, and the wrappers `open`, `close`, `fcntl`, `mmap`,
`munmap`, `poll` and `select`.

Conventions of the embedding.

* The process state is the table `fds` (a list of `open_max` slots) and the
  counter `poll_fds_add`.
* Everything the file calls but does not define (the real primitives resolved
  with `dlsym`, the `lib_oss_*` backend, `calloc`) is a field of `Env`: a
  function from the call's arguments to what the call returns and writes.
* Constants that come from headers (`<fcntl.h>`, `<sys/poll.h>`, `<sys/mman.h>`,
  `alsa-oss-emul.h`) are fields of `Consts`; `linux` holds the usual values.
* Pointers are natural numbers, `NULL` is `0`; a nullable `fd_set *` is an
  `Option`.  Flag words are natural numbers (their bit patterns).
* A wrapper returns, besides its return value and the new state, the list of
  calls it made to the real primitives and to class operations.
* An array access outside the array, a write through a `NULL` set pointer and a
  failed `assert` end the run with a `Fault`.
* The caller's `pollfd` array is a list, its length is `nfds`; an `fd_set` is
  the set of its members, without the bound `FD_SETSIZE`.
* `errno`, the debug output and the lazy call of the constructor are not modelled.
-/

namespace AlsaOss

/-! ## Header constants -/

/-- Header constants used by `alsa-oss.c`; none of them is defined in the file. -/
structure Consts where
  O_RDONLY : Int
  O_WRONLY : Int
  O_RDWR : Int
  O_NONBLOCK : Nat
  F_GETFL : Int
  F_SETFL : Int
  POLLIN : Nat
  POLLOUT : Nat
  POLLERR : Nat
  POLLNVAL : Nat
  MAP_FAILED : Nat
  OSS_WAIT_EVENT_READ : Nat
  OSS_WAIT_EVENT_WRITE : Nat
  OSS_WAIT_EVENT_ERROR : Nat

/-- The values on Linux/glibc (x86-64), with the event bits `1, 2, 4`. -/
def linux : Consts where
  O_RDONLY := 0
  O_WRONLY := 1
  O_RDWR := 2
  O_NONBLOCK := 2048
  F_GETFL := 3
  F_SETFL := 4
  POLLIN := 1
  POLLOUT := 4
  POLLERR := 8
  POLLNVAL := 32
  MAP_FAILED := 18446744073709551615
  OSS_WAIT_EVENT_READ := 1
  OSS_WAIT_EVENT_WRITE := 2
  OSS_WAIT_EVENT_ERROR := 4

/-! ## Data model -/

/-- The enum `fd_class_t` (without the count `FD_CLASSES`). -/
inductive fd_class_t
  | FD_OSS_DSP
  | FD_OSS_MIXER
  deriving DecidableEq, Repr

/-- The struct `fd_t`: class, open flags, address of the active mapping (`0` = none). -/
structure fd_t where
  cls : fd_class_t
  oflags : Nat
  mmap_area : Nat
  deriving DecidableEq, Repr

/-- The globals `fds` (with `open_max = fds.length`) and `poll_fds_add`. -/
structure State where
  fds : List (Option fd_t)
  poll_fds_add : Int
  deriving DecidableEq, Repr

/-- The global `open_max`: the number of slots of `fds`. -/
def State.open_max (s : State) : Int := (s.fds.length : Int)

/-- The struct `pollfd`; `events` and `revents` are the bit patterns of the
shorts.  The conversions between the `short` field and the `unsigned int`
local `revents` keep the pattern, the `POLL*` bits being bits of a short. -/
structure pollfd where
  fd : Int
  events : Nat
  revents : Nat
  deriving DecidableEq, Repr

/-- An `fd_set`, as the set of descriptors whose bit is set. -/
abbrev FdSet := Finset Nat

/-- A `struct timeval *`: `none` is `NULL`, else `(tv_sec, tv_usec)`. -/
abbrev Timeout := Option (Int × Int)

/-- The six arguments of `mmap`. -/
structure MmapArgs where
  addr : Nat
  len : Nat
  prot : Int
  flags : Int
  fd : Int
  offset : Int
  deriving DecidableEq, Repr

/-- Ways a run ends outside the C semantics of the file. -/
inductive Fault
  | fds_index
  | pfds1_index
  | null_fd_set
  | assertion
  deriving DecidableEq, Repr

deriving instance DecidableEq for Except

/-- Calls to the real primitives (`_fcntl`, `_poll`, ...) and to class operations. -/
inductive Call
  | real_open (file : Option String) (oflag : Nat) (mode : Nat)
  | real_close (fd : Int)
  | real_fcntl (fd cmd : Int) (arg : Nat)
  | real_mmap (a : MmapArgs)
  | real_munmap (addr len : Nat)
  | real_poll (ufds : List pollfd) (timeout : Int)
  | real_select (n : Int) (r w e : Option FdSet) (timeout : Timeout)
  | pcm_open (file : String) (oflag : Nat)
  | mixer_open (file : String) (oflag : Nat)
  | pcm_nonblock (fd : Int) (nonblock : Int)
  | class_close (c : fd_class_t) (fd : Int)
  | class_mmap (c : fd_class_t) (a : MmapArgs)
  | class_munmap (c : fd_class_t) (addr len : Nat)
  deriving DecidableEq

/-- What a wrapper leaves behind: return value, state, calls made. -/
structure Out (α : Type) where
  ret : α
  st : State
  calls : List Call
  deriving DecidableEq

/-- Everything `alsa-oss.c` calls without defining it. -/
structure Env where
  _open : Option String → Nat → Nat → Int
  _close : Int → Int
  _fcntl : Int → Int → Nat → Int
  _mmap : MmapArgs → Nat
  _munmap : Nat → Nat → Int
  /-- The real poll: from the entries and the timeout to the count and the
  `revents` it stores, entry by entry. -/
  _poll : List pollfd → Int → Int × List Nat
  /-- The real select: count and the three sets after the call (a set behind a
  `NULL` pointer is ignored). -/
  _select : Int → Option FdSet → Option FdSet → Option FdSet → Timeout →
    Int × FdSet × FdSet × FdSet
  /-- Whether `calloc(sizeof(fd_t), 1)` succeeds. -/
  calloc_ok : Bool
  lib_oss_pcm_open : String → Nat → Int
  lib_oss_pcm_close : Int → Int
  lib_oss_mixer_open : String → Nat → Int
  lib_oss_mixer_close : Int → Int
  lib_oss_pcm_nonblock : Int → Int → Int
  lib_oss_pcm_mmap : MmapArgs → Nat
  lib_oss_pcm_munmap : Nat → Nat → Int
  lib_oss_pcm_poll_fds : Int → Int
  /-- Returns its result and the entries it stores from `ufds[0]` on. -/
  lib_oss_pcm_poll_prepare : Int → Int → Int × List pollfd
  /-- Reads the array from `ufds[0]` on. -/
  lib_oss_pcm_poll_result : Int → (Nat → pollfd) → Int
  /-- Returns its result and the three working sets after the call (the third
  is ignored when `NULL` was passed). -/
  lib_oss_pcm_select_prepare : Int → Int → FdSet → FdSet → Option FdSet →
    Int × FdSet × FdSet × FdSet
  lib_oss_pcm_select_result : Int → FdSet → FdSet → Option FdSet → Int
  /-- Indeterminate initial contents of the automatic array `pfds1`. -/
  pfds1_init : Nat → pollfd

/-! ## Table access -/

/-- The guard `fd < 0 || fd >= open_max || fds[fd] == NULL` of close, write,
read, ioctl, fcntl and mmap: `none` when it holds, else the record `fds[fd]`. -/
def lookup (s : State) (fd : Int) : Option fd_t :=
  if fd < 0 ∨ fd ≥ s.open_max then none
  else match s.fds[fd.toNat]? with
    | some (some r) => some r
    | _ => none

/-- The unguarded read `fds[fd]`. -/
def fdsAt (s : State) (fd : Int) : Except Fault (Option fd_t) :=
  if fd < 0 ∨ fd ≥ s.open_max then .error .fds_index
  else match s.fds[fd.toNat]? with
    | some x => .ok x
    | none => .error .fds_index

/-- The store `fds[fd] = x` (the index already checked). -/
def setSlot (s : State) (fd : Int) (x : Option fd_t) : State :=
  { s with fds := s.fds.set fd.toNat x }

/-! ## Classification of path names -/

/-- The test `strncmp(pathname, p, strlen(p)) == 0`. -/
def starts (pathname : String) (p : String) : Bool :=
  p.toList.isPrefixOf pathname.toList

def is_dsp_device (pathname : Option String) : Bool :=
  match pathname with
  | none => false
  | some f =>
    starts f "/dev/dsp" || starts f "/dev/adsp" || starts f "/dev/audio" ||
    starts f "/dev/sound/dsp" || starts f "/dev/sound/adsp" || starts f "/dev/sound/audio"

def is_mixer_device (pathname : Option String) : Bool :=
  match pathname with
  | none => false
  | some f => starts f "/dev/mixer" || starts f "/dev/sound/mixer"

/-! ## The class operations table `ops` -/

def oss_pcm_fcntl (K : Consts) (E : Env) (r : fd_t) (fd cmd : Int) (arg : Nat) :
    Int × List Call :=
  if cmd = K.F_GETFL then ((r.oflags : Int), [])
  else if cmd = K.F_SETFL then
    let nonblock : Int := if arg &&& K.O_NONBLOCK ≠ 0 then 1 else 0
    let result := E.lib_oss_pcm_nonblock fd nonblock
    if result < 0 then (-1, [.pcm_nonblock fd nonblock])
    else (0, [.pcm_nonblock fd nonblock])
  else (E._fcntl fd cmd arg, [.real_fcntl fd cmd arg])

def oss_mixer_fcntl (K : Consts) (E : Env) (r : fd_t) (fd cmd : Int) (arg : Nat) :
    Int × List Call :=
  if cmd = K.F_GETFL then ((r.oflags : Int), [])
  else (E._fcntl fd cmd arg, [.real_fcntl fd cmd arg])

/-- The entry `ops[c].fcntl`; `r` is the record `fds[fd]` the function reads. -/
def ops_fcntl (K : Consts) (E : Env) (c : fd_class_t) (r : fd_t) (fd cmd : Int) (arg : Nat) :
    Int × List Call :=
  match c with
  | .FD_OSS_DSP => oss_pcm_fcntl K E r fd cmd arg
  | .FD_OSS_MIXER => oss_mixer_fcntl K E r fd cmd arg

def bad_mmap (K : Consts) (_a : MmapArgs) : Nat := K.MAP_FAILED

def bad_munmap (_addr _len : Nat) : Int := -1

def ops_mmap (K : Consts) (E : Env) (c : fd_class_t) (a : MmapArgs) : Nat :=
  match c with
  | .FD_OSS_DSP => E.lib_oss_pcm_mmap a
  | .FD_OSS_MIXER => bad_mmap K a

def ops_munmap (E : Env) (c : fd_class_t) (addr len : Nat) : Int :=
  match c with
  | .FD_OSS_DSP => E.lib_oss_pcm_munmap addr len
  | .FD_OSS_MIXER => bad_munmap addr len

def ops_close (E : Env) (c : fd_class_t) (fd : Int) : Int :=
  match c with
  | .FD_OSS_DSP => E.lib_oss_pcm_close fd
  | .FD_OSS_MIXER => E.lib_oss_mixer_close fd

/-! ## open, close -/

/-- The branch of `open` shared by both device classes once the backend
returned `fd`: allocate the record, fill it in. -/
def open_register (E : Env) (s : State) (c : fd_class_t) (fd : Int) (oflag : Nat)
    (calls : List Call) : Except Fault (Out Int) :=
  if fd ≥ 0 then
    if fd ≥ s.open_max then .error .fds_index
    else if E.calloc_ok then
      let s1 := setSlot s fd (some { cls := c, oflags := oflag, mmap_area := 0 })
      match c with
      | .FD_OSS_DSP =>
        .ok { ret := fd,
              st := { s1 with poll_fds_add := s1.poll_fds_add + E.lib_oss_pcm_poll_fds fd },
              calls := calls }
      | .FD_OSS_MIXER => .ok { ret := fd, st := s1, calls := calls }
    else
      .ok { ret := -1, st := setSlot s fd none, calls := calls ++ [.class_close c fd] }
  else .ok { ret := fd, st := s, calls := calls }

def open_ (E : Env) (s : State) (file : Option String) (oflag : Nat) (mode : Nat) :
    Except Fault (Out Int) :=
  if is_dsp_device file then
    let f := file.getD ""
    open_register E s .FD_OSS_DSP (E.lib_oss_pcm_open f oflag) oflag [.pcm_open f oflag]
  else if is_mixer_device file then
    let f := file.getD ""
    open_register E s .FD_OSS_MIXER (E.lib_oss_mixer_open f oflag) oflag [.mixer_open f oflag]
  else
    let fd := E._open file oflag mode
    if fd ≥ 0 then
      match fdsAt s fd with
      | .error e => .error e
      | .ok (some _) => .error .assertion
      | .ok none => .ok { ret := fd, st := s, calls := [.real_open file oflag mode] }
    else .ok { ret := fd, st := s, calls := [.real_open file oflag mode] }

def close (E : Env) (s : State) (fd : Int) : Except Fault (Out Int) :=
  match lookup s fd with
  | none => .ok { ret := E._close fd, st := s, calls := [.real_close fd] }
  | some xfd =>
    let s1 := setSlot s fd none
    let s2 := { s1 with poll_fds_add := s1.poll_fds_add - E.lib_oss_pcm_poll_fds fd }
    let err := ops_close E xfd.cls fd
    if err ≥ 0 then .ok { ret := err, st := s2, calls := [.class_close xfd.cls fd] }
    else .error .assertion

/-! ## fcntl -/

def fcntl (K : Consts) (E : Env) (s : State) (fd cmd : Int) (arg : Nat) : Out Int :=
  match lookup s fd with
  | none => { ret := E._fcntl fd cmd arg, st := s, calls := [.real_fcntl fd cmd arg] }
  | some r =>
    let res := ops_fcntl K E r.cls r fd cmd arg
    { ret := res.1, st := s, calls := res.2 }

/-! ## mmap, munmap -/

def mmap (K : Consts) (E : Env) (s : State) (a : MmapArgs) : Out Nat :=
  match lookup s a.fd with
  | none => { ret := E._mmap a, st := s, calls := [.real_mmap a] }
  | some r =>
    let result := ops_mmap K E r.cls a
    if result ≠ 0 ∧ result ≠ K.MAP_FAILED then
      { ret := result, st := setSlot s a.fd (some { r with mmap_area := result }),
        calls := [.class_mmap r.cls a] }
    else { ret := result, st := s, calls := [.class_mmap r.cls a] }

/-- The loop `for (fd = 0; fd < open_max; ++fd) if (fds[fd] && fds[fd]->mmap_area == addr) break;`
run on the slots from `fd` on: the index and record at which it breaks, or
`none` when it runs to `open_max`. -/
def munmap_scan (addr : Nat) : List (Option fd_t) → Nat → Option (Nat × fd_t)
  | [], _ => none
  | none :: rest, fd => munmap_scan addr rest (fd + 1)
  | some r :: rest, fd =>
    if r.mmap_area = addr then some (fd, r) else munmap_scan addr rest (fd + 1)

def munmap (E : Env) (s : State) (addr len : Nat) : Out Int :=
  match munmap_scan addr s.fds 0 with
  | none => { ret := E._munmap addr len, st := s, calls := [.real_munmap addr len] }
  | some (fd, r) =>
    { ret := ops_munmap E r.cls addr len,
      st := { s with fds := s.fds.set fd (some { r with mmap_area := 0 }) },
      calls := [.class_munmap r.cls addr len] }

/-! ## poll -/

/-- What `poll` leaves behind: return value, the caller's array, calls made. -/
structure PollOut where
  ret : Int
  pfds : List pollfd
  calls : List Call
  deriving DecidableEq

/-- The direction `fmode` computed from the interest mask. -/
def poll_fmode (K : Consts) (events : Nat) : Int :=
  if events &&& (K.POLLIN ||| K.POLLOUT) = (K.POLLIN ||| K.POLLOUT) then K.O_RDWR
  else if events &&& K.POLLIN ≠ 0 then K.O_RDONLY
  else K.O_WRONLY

/-- The update `nfds1 += n` of the `unsigned int` counter (32 bits). -/
def add_u32 (nfds1 : Nat) (n : Int) : Nat := (((nfds1 : Int) + n) % 4294967296).toNat

/-- The test `result & mask` on an `int` (32 bits, two's complement). -/
def int_and (result : Int) (mask : Nat) : Nat := (result % 4294967296).toNat &&& mask

/-- The number of slots of `pfds1`: `nfds + poll_fds_add + 16` as `unsigned long`. -/
def pfds1_size (s : State) (nfds : Nat) : Nat :=
  (((nfds : Int) + s.poll_fds_add + 16) % 18446744073709551616).toNat

/-- The array after the entries `ws` were stored from slot `off` on. -/
def store (buf : Nat → pollfd) (off : Nat) (ws : List pollfd) : Nat → pollfd :=
  fun i => if off ≤ i then (ws[i - off]?).getD (buf i) else buf i

/-- The array after the real poll stored `revs` into the `revents` of the first `n` slots. -/
def store_revents (buf : Nat → pollfd) (n : Nat) (revs : List Nat) : Nat → pollfd :=
  fun i => if i < n then
      match revs[i]? with
      | some r => { buf i with revents := r }
      | none => buf i
    else buf i

/-- The caller's array after the real poll stored `revs` into its `revents`. -/
def put_revents : List pollfd → List Nat → List pollfd
  | p :: ps, r :: rs => { p with revents := r } :: put_revents ps rs
  | ps, _ => ps

/-- The variables of the first loop of `poll`. -/
structure Expansion where
  nfds1 : Nat
  pfds1 : Nat → pollfd
  direct : Bool

/-- The label `_std1`: copy the entry into slot `nfds1`. -/
def poll_std1 (cap : Nat) (x : Expansion) (p : pollfd) : Except Fault Expansion :=
  if x.nfds1 < cap then
    .ok { nfds1 := add_u32 x.nfds1 1,
          pfds1 := store x.pfds1 x.nfds1 [{ fd := p.fd, events := p.events, revents := 0 }],
          direct := x.direct }
  else .error .pfds1_index

/-- One iteration of the first loop of `poll` (after `pfds[k].revents = 0`). -/
def poll_expand_step (K : Consts) (E : Env) (s : State) (cap : Nat) (x : Expansion)
    (p : pollfd) : Except Fault Expansion :=
  if p.fd ≥ s.open_max then poll_std1 cap x p
  else match fdsAt s p.fd with
    | .error e => .error e
    | .ok none => poll_std1 cap x p
    | .ok (some r) =>
      match r.cls with
      | .FD_OSS_DSP =>
        let res := E.lib_oss_pcm_poll_prepare p.fd (poll_fmode K p.events)
        if res.2 = [] ∨ x.nfds1 + res.2.length ≤ cap then
          .ok { nfds1 := add_u32 x.nfds1 res.1,
                pfds1 := store x.pfds1 x.nfds1 res.2,
                direct := false }
        else .error .pfds1_index
      | .FD_OSS_MIXER => poll_std1 cap x p

/-- The first loop of `poll`: the loop variables at the end and the caller's
array with every `revents` cleared. -/
def poll_expand (K : Consts) (E : Env) (s : State) (cap : Nat) :
    List pollfd → Expansion → Except Fault (Expansion × List pollfd)
  | [], x => .ok (x, [])
  | p :: ps, x =>
    match poll_expand_step K E s cap x p with
    | .error e => .error e
    | .ok x1 =>
      match poll_expand K E s cap ps x1 with
      | .error e => .error e
      | .ok (x2, out) => .ok (x2, { p with revents := 0 } :: out)

/-- The mask computed from the result of `lib_oss_pcm_poll_result`. -/
def poll_revents (K : Consts) (result : Int) : Nat :=
  if result < 0 then K.POLLNVAL
  else
    (if int_and result K.OSS_WAIT_EVENT_ERROR ≠ 0 then K.POLLERR else 0) |||
    (if int_and result K.OSS_WAIT_EVENT_READ ≠ 0 then K.POLLIN else 0) |||
    (if int_and result K.OSS_WAIT_EVENT_WRITE ≠ 0 then K.POLLOUT else 0)

/-- The label `_std2`: read the mask of slot `nfds1`. -/
def poll_std2 (cap : Nat) (buf : Nat → pollfd) (nfds1 : Nat) : Except Fault (Nat × Nat) :=
  if nfds1 < cap then .ok ((buf nfds1).revents, add_u32 nfds1 1)
  else .error .pfds1_index

/-- One iteration of the second loop of `poll`: the value of `revents` and the new `nfds1`. -/
def poll_collapse_step (K : Consts) (E : Env) (s : State) (cap : Nat) (buf : Nat → pollfd)
    (nfds1 : Nat) (p : pollfd) : Except Fault (Nat × Nat) :=
  if p.fd ≥ s.open_max then poll_std2 cap buf nfds1
  else match fdsAt s p.fd with
    | .error e => .error e
    | .ok none => poll_std2 cap buf nfds1
    | .ok (some r) =>
      match r.cls with
      | .FD_OSS_DSP =>
        let result := E.lib_oss_pcm_poll_result p.fd (fun i => buf (nfds1 + i))
        .ok (poll_revents K result, add_u32 nfds1 (E.lib_oss_pcm_poll_fds p.fd))
      | .FD_OSS_MIXER => poll_std2 cap buf nfds1

/-- The second loop of `poll` from `nfds1`, `count1` on: the caller's array,
the final `nfds1` and `count1`. -/
def poll_collapse (K : Consts) (E : Env) (s : State) (cap : Nat) (buf : Nat → pollfd) :
    List pollfd → Nat → Int → Except Fault (List pollfd × Nat × Int)
  | [], nfds1, count1 => .ok ([], nfds1, count1)
  | p :: ps, nfds1, count1 =>
    match poll_collapse_step K E s cap buf nfds1 p with
    | .error e => .error e
    | .ok (revents, n1) =>
      match poll_collapse K E s cap buf ps n1 (if revents ≠ 0 then count1 + 1 else count1) with
      | .error e => .error e
      | .ok (out, n2, c2) => .ok ({ p with revents := revents } :: out, n2, c2)

/-- The loop variables of `poll` before its first loop. -/
def poll_init (E : Env) : Expansion := { nfds1 := 0, pfds1 := E.pfds1_init, direct := true }

def poll (K : Consts) (E : Env) (s : State) (pfds : List pollfd) (timeout : Int) :
    Except Fault PollOut :=
  let cap := pfds1_size s pfds.length
  match poll_expand K E s cap pfds (poll_init E) with
  | .error e => .error e
  | .ok (x, pfds0) =>
    if x.direct then
      let res := E._poll pfds0 timeout
      .ok { ret := res.1, pfds := put_revents pfds0 res.2, calls := [.real_poll pfds0 timeout] }
    else
      let ufds := (List.range x.nfds1).map x.pfds1
      let res := E._poll ufds timeout
      if res.1 ≤ 0 then
        .ok { ret := res.1, pfds := pfds0, calls := [.real_poll ufds timeout] }
      else
        match poll_collapse K E s cap (store_revents x.pfds1 x.nfds1 res.2) pfds0 0 0 with
        | .error e => .error e
        | .ok (out, _, count1) =>
          .ok { ret := count1, pfds := out, calls := [.real_poll ufds timeout] }

/-- The value of `nfds1` when the first loop reaches entry `k`. -/
def expand_offset (K : Consts) (E : Env) (s : State) (pfds : List pollfd) (k : Nat) :
    Except Fault Nat :=
  match poll_expand K E s (pfds1_size s pfds.length) (pfds.take k) (poll_init E) with
  | .error e => .error e
  | .ok (x, _) => .ok x.nfds1

/-- The value of `nfds1` when the second loop, run on the array `buf`, reaches entry `k`. -/
def collapse_offset (K : Consts) (E : Env) (s : State) (buf : Nat → pollfd)
    (pfds : List pollfd) (k : Nat) : Except Fault Nat :=
  match poll_collapse K E s (pfds1_size s pfds.length) buf (pfds.take k) 0 0 with
  | .error e => .error e
  | .ok (_, n, _) => .ok n

/-- The number of entries whose `revents` is non-zero. -/
def ready_count (pfds : List pollfd) : Int :=
  ((pfds.filter (fun p => p.revents ≠ 0)).length : Int)

/-! ## select -/

/-- What `select` leaves behind: return value, the caller's three sets, calls made. -/
structure SelectOut where
  ret : Int
  rfds : Option FdSet
  wfds : Option FdSet
  efds : Option FdSet
  calls : List Call
  deriving DecidableEq

/-- The test `p && FD_ISSET(fd, p)`. -/
def isset (fd : Nat) (p : Option FdSet) : Bool :=
  match p with
  | some x => decide (fd ∈ x)
  | none => false

/-- A conditional `if (c) FD_SET(fd, p)` or `if (c) FD_CLR(fd, p)`; `f` is the change to the set. -/
def fd_upd (c : Bool) (f : FdSet → FdSet) (p : Option FdSet) : Except Fault (Option FdSet) :=
  if c then
    match p with
    | some x => .ok (some (f x))
    | none => .error .null_fd_set
  else .ok p

/-- The variables of the first loop of `select`: the working copies `_rfds1`,
`_wfds1`, the pointer `efds1` with the copy `_efds1` behind it, `nfds1`, `direct`. -/
structure Working where
  rfds1 : FdSet
  wfds1 : FdSet
  efds1 : Option FdSet
  nfds1 : Int
  direct : Bool
  deriving DecidableEq

/-- The direction `fmode` computed from the read and write interest. -/
def select_fmode (K : Consts) (r w : Bool) : Int :=
  if r && w then K.O_RDWR else if r then K.O_RDONLY else K.O_WRONLY

/-- One iteration of the first loop of `select`; `none` is the `return -1`. -/
def select_prepare_step (K : Consts) (E : Env) (s : State) (rfds wfds efds : Option FdSet)
    (x : Working) (fd : Nat) : Except Fault (Option Working) :=
  let r := isset fd rfds
  let w := isset fd wfds
  let e := isset fd efds
  if !(r || w || e) then .ok (some x)
  else match fdsAt s fd with
    | .error err => .error err
    | .ok none => .ok (some x)
    | .ok (some rec) =>
      match rec.cls with
      | .FD_OSS_DSP =>
        let res := E.lib_oss_pcm_select_prepare fd (select_fmode K r w) x.rfds1 x.wfds1
          (if e then x.efds1 else none)
        if res.1 < 0 then .ok none
        else
          let efds1 := if e then x.efds1.map (fun _ => res.2.2.2) else x.efds1
          match fd_upd e (fun y => y.erase fd) efds1 with
          | .error err => .error err
          | .ok efds2 =>
            .ok (some { rfds1 := if r then res.2.1.erase fd else res.2.1,
                        wfds1 := if w then res.2.2.1.erase fd else res.2.2.1,
                        efds1 := efds2,
                        nfds1 := if x.nfds1 < res.1 + 1 then res.1 + 1 else x.nfds1,
                        direct := false })
      | .FD_OSS_MIXER => .ok (some x)

/-- The first loop of `select` over the descriptors `fd`, `fd + 1`, ...; `none` is the `return -1`. -/
def select_prepare (K : Consts) (E : Env) (s : State) (rfds wfds efds : Option FdSet) :
    List Nat → Working → Except Fault (Option Working)
  | [], x => .ok (some x)
  | fd :: rest, x =>
    match select_prepare_step K E s rfds wfds efds x fd with
    | .error err => .error err
    | .ok none => .ok none
    | .ok (some x1) => select_prepare K E s rfds wfds efds rest x1

/-- The variables of the second loop of `select`: the caller's sets and `count1`. -/
structure Caller where
  rfds : Option FdSet
  wfds : Option FdSet
  efds : Option FdSet
  count1 : Int
  deriving DecidableEq

/-- The end of an iteration of the second loop: clear the bits that were asked
for and are not ready, count the descriptor. -/
def select_finish (c : Caller) (fd : Nat) (r w e r1 w1 e1 : Bool) : Except Fault Caller :=
  match fd_upd (r && !r1) (fun y => y.erase fd) c.rfds with
  | .error err => .error err
  | .ok rfds =>
    match fd_upd (w && !w1) (fun y => y.erase fd) c.wfds with
    | .error err => .error err
    | .ok wfds =>
      match fd_upd (e && !e1) (fun y => y.erase fd) c.efds with
      | .error err => .error err
      | .ok efds =>
        .ok { rfds := rfds, wfds := wfds, efds := efds,
              count1 := if r1 || w1 || e1 then c.count1 + 1 else c.count1 }

/-- The case `FD_OSS_DSP` of the second loop, from the backend's `result`. -/
def select_result_dsp (K : Consts) (c : Caller) (fd : Nat) (r w e : Bool) (result : Int) :
    Except Fault Caller :=
  if result < 0 ∧ e = true then
    match fd_upd true (fun y => insert fd y) c.efds with
    | .error err => .error err
    | .ok efds => select_finish { c with efds := efds } fd r w e false false true
  else
    let e1 := decide (int_and result K.OSS_WAIT_EVENT_ERROR ≠ 0)
    let r1 := decide (int_and result K.OSS_WAIT_EVENT_READ ≠ 0)
    let w1 := decide (int_and result K.OSS_WAIT_EVENT_WRITE ≠ 0)
    match fd_upd e1 (fun y => insert fd y) c.efds with
    | .error err => .error err
    | .ok efds =>
      match fd_upd r1 (fun y => insert fd y) c.rfds with
      | .error err => .error err
      | .ok rfds =>
        match fd_upd w1 (fun y => insert fd y) c.wfds with
        | .error err => .error err
        | .ok wfds =>
          select_finish { c with rfds := rfds, wfds := wfds, efds := efds } fd r w e r1 w1 e1

/-- One iteration of the second loop of `select`; `rfds1`, `wfds1`, `efds1` are
the working sets after the real select. -/
def select_result_step (K : Consts) (E : Env) (s : State) (rfds1 wfds1 : FdSet)
    (efds1 : Option FdSet) (c : Caller) (fd : Nat) : Except Fault Caller :=
  let r := isset fd c.rfds
  let w := isset fd c.wfds
  let e := isset fd c.efds
  if !(r || w || e) then .ok c
  else match fdsAt s fd with
    | .error err => .error err
    | .ok none => .ok c
    | .ok (some rec) =>
      match rec.cls with
      | .FD_OSS_DSP =>
        select_result_dsp K c fd r w e (E.lib_oss_pcm_select_result fd rfds1 wfds1 efds1)
      | .FD_OSS_MIXER =>
        select_finish c fd r w e (r && decide (fd ∈ rfds1)) (w && decide (fd ∈ wfds1))
          (e && isset fd efds1)

/-- The second loop of `select` over the descriptors `fd`, `fd + 1`, .... -/
def select_result (K : Consts) (E : Env) (s : State) (rfds1 wfds1 : FdSet)
    (efds1 : Option FdSet) : List Nat → Caller → Except Fault Caller
  | [], c => .ok c
  | fd :: rest, c =>
    match select_result_step K E s rfds1 wfds1 efds1 c fd with
    | .error err => .error err
    | .ok c1 => select_result K E s rfds1 wfds1 efds1 rest c1

def select (K : Consts) (E : Env) (s : State) (nfds : Int) (rfds wfds efds : Option FdSet)
    (timeout : Timeout) : Except Fault SelectOut :=
  let x0 : Working :=
    { rfds1 := rfds.getD ∅, wfds1 := wfds.getD ∅, efds1 := efds, nfds1 := nfds, direct := true }
  match select_prepare K E s rfds wfds efds (List.range nfds.toNat) x0 with
  | .error err => .error err
  | .ok none => .ok { ret := -1, rfds := rfds, wfds := wfds, efds := efds, calls := [] }
  | .ok (some x) =>
    if x.direct then
      let res := E._select nfds rfds wfds efds timeout
      .ok { ret := res.1,
            rfds := rfds.map (fun _ => res.2.1),
            wfds := wfds.map (fun _ => res.2.2.1),
            efds := efds.map (fun _ => res.2.2.2),
            calls := [.real_select nfds rfds wfds efds timeout] }
    else
      let res := E._select x.nfds1 (some x.rfds1) (some x.wfds1) x.efds1 timeout
      let calls := [Call.real_select x.nfds1 (some x.rfds1) (some x.wfds1) x.efds1 timeout]
      if res.1 < 0 then
        .ok { ret := res.1, rfds := rfds, wfds := wfds, efds := efds, calls := calls }
      else if res.1 = 0 then
        .ok { ret := 0, rfds := rfds.map (fun _ => ∅), wfds := wfds.map (fun _ => ∅),
              efds := efds.map (fun _ => ∅), calls := calls }
      else
        match select_result K E s res.2.1 res.2.2.1 (x.efds1.map (fun _ => res.2.2.2))
            (List.range nfds.toNat) { rfds := rfds, wfds := wfds, efds := efds, count1 := 0 } with
        | .error err => .error err
        | .ok c =>
          .ok { ret := c.count1, rfds := c.rfds, wfds := c.wfds, efds := c.efds, calls := calls }

/-! ## Runs of several calls -/

/-- The calls `mmap(a)` for the requests in order: the final state and, call by
call, the descriptor with the address returned for it. -/
def mmap_all (K : Consts) (E : Env) : State → List MmapArgs → State × List (Int × Nat)
  | s, [] => (s, [])
  | s, a :: rest =>
    let o := mmap K E s a
    let r := mmap_all K E o.st rest
    (r.1, (a.fd, o.ret) :: r.2)

/-- The calls `munmap(addr, len)` for the pairs in order: what each call leaves behind. -/
def munmap_all (E : Env) : State → List (Nat × Nat) → List (Out Int)
  | _, [] => []
  | s, (addr, len) :: rest =>
    let o := munmap E s addr len
    o :: munmap_all E o.st rest

/-- The entry names a descriptor that carries a record of class `FD_OSS_DSP`. -/
def is_dsp (s : State) (p : pollfd) : Prop :=
  (lookup s p.fd).map (fun r => r.cls) = some fd_class_t.FD_OSS_DSP

instance (s : State) (p : pollfd) : Decidable (is_dsp s p) := by
  unfold is_dsp; infer_instance

/-- The descriptors that carry a device record. -/
def dsp_fds (s : State) : Finset Int :=
  ((Finset.range s.fds.length).filter (fun i : Nat => is_dsp s ⟨(i : Int), 0, 0⟩)).image
    (fun i : Nat => (i : Int))

/-- The sum of `lib_oss_pcm_poll_fds(fd)` over the registered device descriptors. -/
def poll_fds_total (E : Env) (s : State) : Int :=
  Finset.sum (dsp_fds s) (fun fd => E.lib_oss_pcm_poll_fds fd)

/-- The number of slots of `pfds1` an entry takes when `lib_oss_pcm_poll_prepare`
stores `lib_oss_pcm_poll_fds(fd)` entries. -/
def slots (E : Env) (s : State) (p : pollfd) : Int :=
  if is_dsp s p then E.lib_oss_pcm_poll_fds p.fd else 1

/-! ## Concrete environments and states -/

/-- A kernel and backend in which nothing is ever ready; the backend opens the
device as descriptor `3` with two poll descriptors and the mixer as descriptor `4`. -/
def env0 : Env where
  _open := fun _ _ _ => 5
  _close := fun _ => 0
  _fcntl := fun _ _ _ => 0
  _mmap := fun _ => 4096
  _munmap := fun _ _ => 0
  _poll := fun ufds _ => (0, ufds.map (fun _ => 0))
  _select := fun _ _ _ _ _ => (0, ∅, ∅, ∅)
  calloc_ok := true
  lib_oss_pcm_open := fun _ _ => 3
  lib_oss_pcm_close := fun _ => 0
  lib_oss_mixer_open := fun _ _ => 4
  lib_oss_mixer_close := fun _ => 0
  lib_oss_pcm_nonblock := fun _ _ => 0
  lib_oss_pcm_mmap := fun a => 65536 * (a.fd.toNat + 1)
  lib_oss_pcm_munmap := fun _ _ => 0
  lib_oss_pcm_poll_fds := fun _ => 2
  lib_oss_pcm_poll_prepare := fun _ _ => (2, [⟨10, 1, 0⟩, ⟨11, 4, 0⟩])
  lib_oss_pcm_poll_result := fun _ _ => 0
  lib_oss_pcm_select_prepare := fun _ _ r w _ => (10, insert 10 r, w, ∅)
  lib_oss_pcm_select_result := fun _ _ _ _ => 0
  pfds1_init := fun _ => ⟨0, 0, 0⟩

/-- The table of a process with eight descriptor slots and nothing opened. -/
def state0 : State := { fds := List.replicate 8 none, poll_fds_add := 0 }

/-- The state once `open("/dev/dsp", O_RDWR)` has returned `3`. -/
def state_dsp : State :=
  { fds := [none, none, none, some ⟨.FD_OSS_DSP, 2, 0⟩, none, none, none, none],
    poll_fds_add := 2 }

/-- The state once `open("/dev/mixer", O_RDWR)` has returned `4`. -/
def state_mixer : State :=
  { fds := [none, none, none, none, some ⟨.FD_OSS_MIXER, 2, 0⟩, none, none, none],
    poll_fds_add := 0 }

/-- Two devices, at descriptors `3` and `6`, none mapped. -/
def state_two : State :=
  { fds := [none, none, none, some ⟨.FD_OSS_DSP, 2, 0⟩, none, none,
            some ⟨.FD_OSS_DSP, 2, 0⟩, none],
    poll_fds_add := 4 }

/-- Requests `mmap(NULL, 4096, 3, 1, fd, 0)` on the descriptors `3` and `6`. -/
def reqs_two : List MmapArgs := [⟨0, 4096, 3, 1, 3, 0⟩, ⟨0, 4096, 3, 1, 6, 0⟩]

/-- A device without poll descriptors: `lib_oss_pcm_poll_prepare` stores nothing and returns `0`. -/
def env_sync : Env :=
  { env0 with
    lib_oss_pcm_poll_fds := fun _ => 0
    lib_oss_pcm_poll_prepare := fun _ _ => (0, []) }

/-- The state once `open("/dev/dsp", O_RDWR)` has returned `3` under `env_sync`. -/
def state_sync : State := { state_dsp with poll_fds_add := 0 }

/-- A backend whose `lib_oss_pcm_poll_prepare` fails. -/
def env_fail : Env := { env0 with lib_oss_pcm_poll_prepare := fun _ _ => (-1, []) }

/-- A backend whose `lib_oss_pcm_select_prepare` fails. -/
def env_sel_fail : Env :=
  { env0 with lib_oss_pcm_select_prepare := fun _ _ r w _ => (-1, r, w, ∅) }

/-- The real select reports descriptor `10` readable, `lib_oss_pcm_select_result` fails. -/
def env_res : Env :=
  { env0 with
    _select := fun _ _ _ _ _ => (1, {10}, ∅, ∅)
    lib_oss_pcm_select_result := fun _ _ _ _ => -1 }

/-- A duplex device: `lib_oss_pcm_poll_fds` counts both streams, while
`lib_oss_pcm_poll_prepare` for reading alone stores the capture descriptor
only; the real poll reports descriptor `5` readable. -/
def env_half : Env :=
  { env0 with
    lib_oss_pcm_poll_prepare := fun _ fmode =>
      if fmode = 0 then (1, [⟨10, 1, 0⟩]) else (2, [⟨10, 1, 0⟩, ⟨11, 4, 0⟩])
    _poll := fun ufds _ => (1, ufds.map (fun p => if p.fd = 5 then 1 else 0)) }

/-- The real poll reports the device's first descriptor and descriptor `5`
readable; the backend turns that into a read event. -/
def env_ready : Env :=
  { env0 with
    _poll := fun ufds _ => (2, ufds.map (fun p => if p.fd = 10 ∨ p.fd = 5 then 1 else 0))
    lib_oss_pcm_poll_result := fun _ ufds => if (ufds 0).revents ≠ 0 then 1 else 0 }

/-! ## The concrete states are reachable -/

/-- The state `state_dsp` is what `open("/dev/dsp", O_RDWR)` leaves behind. -/
theorem open_dsp_reaches_state_dsp :
    open_ env0 state0 (some "/dev/dsp") 2 0
      = .ok ⟨3, state_dsp, [.pcm_open "/dev/dsp" 2]⟩ := by decide

/-- The state `state_mixer` is what `open("/dev/mixer", O_RDWR)` leaves behind:
the new record has `mmap_area = 0`. -/
theorem open_mixer_reaches_state_mixer :
    open_ env0 state0 (some "/dev/mixer") 2 0
      = .ok ⟨4, state_mixer, [.mixer_open "/dev/mixer" 2]⟩ := by decide

/-- The state `state_sync` is what `open("/dev/dsp", O_RDWR)` leaves behind for
a device without poll descriptors. -/
theorem open_dsp_reaches_state_sync :
    open_ env_sync state0 (some "/dev/dsp") 2 0
      = .ok ⟨3, state_sync, [.pcm_open "/dev/dsp" 2]⟩ := by decide

/-! ## Runs at concrete inputs -/

/-- C2 (counterexample): on the device descriptor `3`, opened with `O_RDWR`,
`fcntl(3, F_SETFL, O_NONBLOCK)` succeeds through `lib_oss_pcm_nonblock(3, 1)`
and leaves the state as it was, so the following `fcntl(3, F_GETFL)` returns
`O_RDWR`, without the `O_NONBLOCK` bit; on the mixer descriptor `4` the same
`F_SETFL` goes to the real fcntl and not to the backend. -/
theorem fcntl_setfl_then_getfl_counterexample :
    fcntl linux env0 state_dsp 3 linux.F_SETFL linux.O_NONBLOCK
      = ⟨0, state_dsp, [.pcm_nonblock 3 1]⟩ ∧
    (fcntl linux env0 (fcntl linux env0 state_dsp 3 linux.F_SETFL linux.O_NONBLOCK).st
      3 linux.F_GETFL 0).ret = 2 ∧
    (2 : Nat) &&& linux.O_NONBLOCK = 0 ∧
    fcntl linux env0 state_mixer 4 linux.F_SETFL linux.O_NONBLOCK
      = ⟨0, state_mixer, [.real_fcntl 4 linux.F_SETFL linux.O_NONBLOCK]⟩ := by decide

/-- C3 (failing input): `poll` on the single entry `{fd = -1, events = POLLIN}`,
which names no descriptor, reads `fds[-1]`; `select` with `nfds = 10` and
descriptor `9` in the read set reads `fds[9]` in a table of eight slots.
Neither reaches the real primitive.  The guard of `fcntl` on the same
descriptor `-1` forwards to the real fcntl. -/
theorem poll_select_read_outside_fds :
    poll linux env0 state0 [⟨-1, linux.POLLIN, 0⟩] 0 = .error .fds_index ∧
    select linux env0 state0 10 (some {9}) none none none = .error .fds_index ∧
    fcntl linux env0 state0 (-1) linux.F_GETFL 0
      = ⟨0, state0, [.real_fcntl (-1) linux.F_GETFL 0]⟩ := by decide

/-- C4 (counterexample): `poll` with `POLLIN` on the device descriptor `3`,
whose `lib_oss_pcm_poll_prepare` stores nothing and returns `0`, with an
infinite timeout: the real poll is called on the empty list, and when it
returns `0` so does `poll`, with `revents = 0`. -/
theorem poll_sync_device_counterexample :
    poll linux env_sync state_sync [⟨3, linux.POLLIN, 0⟩] (-1)
      = .ok ⟨0, [⟨3, linux.POLLIN, 0⟩], [.real_poll [] (-1)]⟩ := by decide

/-- C5 (failing input): `poll` on a plain descriptor `5` and the device
descriptor `3` whose `lib_oss_pcm_poll_prepare` returns `-1`: the result is
added to `nfds1` (from `1` to `0`), the real poll is called on the empty list
and its `0` is returned.  `select` on descriptor `3`, with
`lib_oss_pcm_select_prepare` returning `-1`, returns `-1` without a call. -/
theorem poll_ignores_prepare_failure :
    poll linux env_fail state_dsp [⟨5, linux.POLLIN, 0⟩, ⟨3, linux.POLLIN, 0⟩] 0
      = .ok ⟨0, [⟨5, linux.POLLIN, 0⟩, ⟨3, linux.POLLIN, 0⟩], [.real_poll [] 0]⟩ ∧
    select linux env_sel_fail state_dsp 4 (some {3}) none none none
      = .ok ⟨-1, some {3}, none, none, []⟩ := by decide

/-- C6 (failing input): with the mixer descriptor `4` open and never mapped,
`munmap(NULL, 4096)` goes to the mixer's `bad_munmap` and returns `-1`; the
real munmap is not called. -/
theorem munmap_null_goes_to_unmapped_record :
    munmap env0 state_mixer 0 4096
      = ⟨-1, state_mixer, [.class_munmap .FD_OSS_MIXER 0 4096]⟩ := by decide

/-- C8 (failing input): `poll` on the entries `{3, POLLIN}` (a device) and
`{5, POLLIN}` (a plain descriptor), with `lib_oss_pcm_poll_prepare(3, O_RDONLY)`
storing and returning one entry and `lib_oss_pcm_poll_fds(3)` returning `2`:
the first loop copies entry `1` to slot `1`, the second loop advances by
`lib_oss_pcm_poll_fds(3)` and reads slot `2` for it, and the entry comes back
with `revents = 0` and a count of `0` although the real poll stored `POLLIN`
for its slot and returned `1`. -/
theorem poll_second_loop_reads_other_slot :
    expand_offset linux env_half state_dsp [⟨3, 1, 0⟩, ⟨5, 1, 0⟩] 1 = .ok 1 ∧
    collapse_offset linux env_half state_dsp env_half.pfds1_init [⟨3, 1, 0⟩, ⟨5, 1, 0⟩] 1
      = .ok 2 ∧
    (env_half._poll [⟨10, 1, 0⟩, ⟨5, 1, 0⟩] 0).2 = [0, 1] ∧
    poll linux env_half state_dsp [⟨3, 1, 0⟩, ⟨5, 1, 0⟩] 0
      = .ok ⟨0, [⟨3, 1, 0⟩, ⟨5, 1, 0⟩], [.real_poll [⟨10, 1, 0⟩, ⟨5, 1, 0⟩] 0]⟩ := by decide

/-- C9 (failing input): `select` with read interest alone in the device
descriptor `3` (all three sets supplied, the other two empty), the real select
returning `1` and `lib_oss_pcm_select_result` returning `-1`: on return the
read, write and exceptional bits of `3` are all set.  With the write and
exceptional sets `NULL` the same call stores through the `NULL` pointer. -/
theorem select_negative_result_sets_all_bits :
    select linux env_res state_dsp 4 (some {3}) (some ∅) (some ∅) none
      = .ok ⟨1, some {3}, some {3}, some {3},
          [.real_select 11 (some {10}) (some ∅) (some ∅) none]⟩ ∧
    select linux env_res state_dsp 4 (some {3}) none none none = .error .null_fd_set := by
  decide

/-- C10 (failing input): the device descriptor `3` has two poll descriptors,
`lib_oss_pcm_poll_prepare` stores and returns two entries, and `poll_fds_add`
is `2`, the sum over the registered devices; a list naming descriptor `3` in
19 entries gets `19 + 2 + 16 = 37` slots, the first loop reaches the
nineteenth entry at offset `36`, and that entry's two stores go to slots `36`
and `37`. -/
theorem poll_duplicate_entries_overflow_pfds1 :
    env0.lib_oss_pcm_poll_prepare 3 (poll_fmode linux linux.POLLIN)
      = (env0.lib_oss_pcm_poll_fds 3, [⟨10, 1, 0⟩, ⟨11, 4, 0⟩]) ∧
    state_dsp.poll_fds_add = poll_fds_total env0 state_dsp ∧
    pfds1_size state_dsp 19 = 37 ∧
    expand_offset linux env0 state_dsp (List.replicate 19 ⟨3, linux.POLLIN, 0⟩) 18 = .ok 36 ∧
    poll linux env0 state_dsp (List.replicate 19 ⟨3, linux.POLLIN, 0⟩) 0
      = .error .pfds1_index := by decide

/-! ## Table access lemmas -/

theorem lookup_some_iff (s : State) (fd : Int) (r : fd_t) :
    lookup s fd = some r ↔ 0 ≤ fd ∧ fd < s.open_max ∧ s.fds[fd.toNat]? = some (some r) := by
  unfold lookup
  by_cases h : fd < 0 ∨ fd ≥ s.open_max
  · simp only [h, if_true]
    constructor
    · intro h1; cases h1
    · rintro ⟨h1, h2, _⟩; omega
  · simp only [h, if_false]
    have h1 : 0 ≤ fd ∧ fd < s.open_max := by omega
    constructor
    · intro h2
      refine ⟨h1.1, h1.2, ?_⟩
      split at h2
      · rename_i r1 heq; cases h2; exact heq
      · cases h2
    · rintro ⟨_, _, h3⟩
      rw [h3]

theorem fdsAt_of_lookup (s : State) (fd : Int) (r : fd_t) (h : lookup s fd = some r) :
    ¬ (fd ≥ s.open_max) ∧ fdsAt s fd = .ok (some r) := by
  obtain ⟨h0, h1, h2⟩ := (lookup_some_iff s fd r).1 h
  refine ⟨by omega, ?_⟩
  unfold fdsAt
  have : ¬ (fd < 0 ∨ fd ≥ s.open_max) := by omega
  simp only [this, if_false, h2]

/-! ## fcntl -/

/-- C2 (amended): for a registered descriptor, `F_GETFL` returns the record's
`oflags` without any call to the real fcntl or the backend; `F_SETFL` on a
device calls `lib_oss_pcm_nonblock(fd, (arg & O_NONBLOCK) ? 1 : 0)` and returns
`-1` or `0` by its sign, on a mixer it is forwarded to the real fcntl; in both
cases the table is unchanged, so a following `F_GETFL` still returns the
`oflags` of the record. -/
theorem fcntl_getfl_setfl (K : Consts) (E : Env) (s : State) (fd : Int) (arg : Nat) (r : fd_t)
    (hreg : lookup s fd = some r) (hne : K.F_SETFL ≠ K.F_GETFL) :
    fcntl K E s fd K.F_GETFL arg = ⟨(r.oflags : Int), s, []⟩ ∧
    (r.cls = .FD_OSS_DSP →
      fcntl K E s fd K.F_SETFL arg
        = ⟨if E.lib_oss_pcm_nonblock fd (if arg &&& K.O_NONBLOCK ≠ 0 then 1 else 0) < 0
            then -1 else 0,
           s, [.pcm_nonblock fd (if arg &&& K.O_NONBLOCK ≠ 0 then 1 else 0)]⟩) ∧
    (r.cls = .FD_OSS_MIXER →
      fcntl K E s fd K.F_SETFL arg
        = ⟨E._fcntl fd K.F_SETFL arg, s, [.real_fcntl fd K.F_SETFL arg]⟩) ∧
    (fcntl K E (fcntl K E s fd K.F_SETFL arg).st fd K.F_GETFL 0).ret = (r.oflags : Int) := by
  have hst : ∀ cmd a, (fcntl K E s fd cmd a).st = s := by
    intro cmd a; unfold fcntl; rw [hreg]
  have hget : ∀ a, fcntl K E s fd K.F_GETFL a = ⟨(r.oflags : Int), s, []⟩ := by
    intro a
    unfold fcntl; rw [hreg]
    cases hc : r.cls <;> simp [hc, ops_fcntl, oss_pcm_fcntl, oss_mixer_fcntl]
  refine ⟨hget arg, ?_, ?_, ?_⟩
  · intro hc
    unfold fcntl; rw [hreg]
    simp only [hc, ops_fcntl, oss_pcm_fcntl, hne, if_false, if_true]
    by_cases hr : E.lib_oss_pcm_nonblock fd (if arg &&& K.O_NONBLOCK ≠ 0 then 1 else 0) < 0
    · simp only [hr, if_true]
    · simp only [hr, if_false]
  · intro hc
    unfold fcntl; rw [hreg]
    simp only [hc, ops_fcntl, oss_mixer_fcntl, hne, if_false]
  · rw [hst, hget]

/-- C2 (witness): the device descriptor `3` of `state_dsp` under the Linux constants. -/
theorem fcntl_getfl_setfl_witness :
    fcntl linux env0 state_dsp 3 linux.F_GETFL 2048 = ⟨((2 : Nat) : Int), state_dsp, []⟩ ∧
    (fd_class_t.FD_OSS_DSP = .FD_OSS_DSP →
      fcntl linux env0 state_dsp 3 linux.F_SETFL 2048
        = ⟨if env0.lib_oss_pcm_nonblock 3 (if 2048 &&& linux.O_NONBLOCK ≠ 0 then 1 else 0) < 0
            then -1 else 0,
           state_dsp, [.pcm_nonblock 3 (if 2048 &&& linux.O_NONBLOCK ≠ 0 then 1 else 0)]⟩) ∧
    (fd_class_t.FD_OSS_DSP = .FD_OSS_MIXER →
      fcntl linux env0 state_dsp 3 linux.F_SETFL 2048
        = ⟨env0._fcntl 3 linux.F_SETFL 2048, state_dsp, [.real_fcntl 3 linux.F_SETFL 2048]⟩) ∧
    (fcntl linux env0 (fcntl linux env0 state_dsp 3 linux.F_SETFL 2048).st 3 linux.F_GETFL 0).ret
      = ((2 : Nat) : Int) :=
  fcntl_getfl_setfl linux env0 state_dsp 3 2048 ⟨.FD_OSS_DSP, 2, 0⟩ (by decide) (by decide)

/-! ## poll on one device entry -/

/-- C4 (amended): `poll` on a single registered device descriptor whose
`lib_oss_pcm_poll_prepare` stores nothing and returns `0` calls the real poll
once, on the empty list with the caller's timeout; when the real poll reports
no ready descriptor (a count of `0` or less) `poll` returns that count and the
entry's `revents` is `0`. -/
theorem poll_sync_device_follows_real_poll (K : Consts) (E : Env) (s : State) (fd : Int)
    (events revents : Nat) (timeout : Int) (r : fd_t)
    (hreg : lookup s fd = some r) (hcls : r.cls = .FD_OSS_DSP)
    (hprep : E.lib_oss_pcm_poll_prepare fd (poll_fmode K events) = (0, []))
    (hreal : (E._poll [] timeout).1 ≤ 0) :
    poll K E s [⟨fd, events, revents⟩] timeout
      = .ok ⟨(E._poll [] timeout).1, [⟨fd, events, 0⟩], [.real_poll [] timeout]⟩ := by
  obtain ⟨h1, h2⟩ := fdsAt_of_lookup s fd r hreg
  have hexp : poll_expand K E s (pfds1_size s 1) [⟨fd, events, revents⟩] (poll_init E)
      = .ok (⟨0, store E.pfds1_init 0 [], false⟩, [⟨fd, events, 0⟩]) := by
    simp [poll_expand, poll_expand_step, h1, h2, hcls, hprep, poll_init, add_u32]
  unfold poll
  simp only [List.length_singleton, hexp]
  simp [hreal]

/-- C4 (witness): the device descriptor `3` of `state_sync`, read interest, infinite timeout. -/
theorem poll_sync_device_follows_real_poll_witness :
    poll linux env_sync state_sync [⟨3, linux.POLLIN, 7⟩] (-1)
      = .ok ⟨(env_sync._poll [] (-1)).1, [⟨3, linux.POLLIN, 0⟩], [.real_poll [] (-1)]⟩ :=
  poll_sync_device_follows_real_poll linux env_sync state_sync 3 linux.POLLIN 7 (-1)
    ⟨.FD_OSS_DSP, 2, 0⟩ (by decide) (by decide) (by decide) (by decide)

/-! ## mmap and munmap -/

theorem setSlot_getElem? (s : State) (fd : Int) (x : Option fd_t) (i : Nat) :
    (setSlot s fd x).fds[i]?
      = if fd.toNat = i then (if fd.toNat < s.fds.length then some x else none)
        else s.fds[i]? := by
  simp [setSlot, List.getElem?_set]

theorem setSlot_open_max (s : State) (fd : Int) (x : Option fd_t) :
    (setSlot s fd x).open_max = s.open_max := by
  simp [setSlot, State.open_max]

theorem lookup_setSlot_eq (s : State) (fd : Int) (r x : fd_t) (h : lookup s fd = some r) :
    lookup (setSlot s fd (some x)) fd = some x := by
  obtain ⟨h0, h1, h2⟩ := (lookup_some_iff s fd r).1 h
  apply (lookup_some_iff _ fd x).2
  refine ⟨h0, by rw [setSlot_open_max]; exact h1, ?_⟩
  rw [setSlot_getElem?]
  have hlt : fd.toNat < s.fds.length := by
    unfold State.open_max at h1; omega
  simp [hlt]

theorem lookup_congr (s t : State) (fd : Int) (hlen : t.fds.length = s.fds.length)
    (hslot : t.fds[fd.toNat]? = s.fds[fd.toNat]?) : lookup t fd = lookup s fd := by
  unfold lookup State.open_max
  rw [hlen, hslot]

/-- The run of the witness of C1, spelled out: `munmap(458752)` goes to the
device class and clears the record of `6`, then `munmap(262144)` clears that of `3`. -/
theorem munmap_two_devices_run :
    mmap_all linux env0 state_two reqs_two
      = (⟨[none, none, none, some ⟨.FD_OSS_DSP, 2, 262144⟩, none, none,
            some ⟨.FD_OSS_DSP, 2, 458752⟩, none], 4⟩, [(3, 262144), (6, 458752)]) ∧
    munmap_all env0 (mmap_all linux env0 state_two reqs_two).1 [(458752, 4096), (262144, 4096)]
      = [⟨0, ⟨[none, none, none, some ⟨.FD_OSS_DSP, 2, 262144⟩, none, none,
                some ⟨.FD_OSS_DSP, 2, 0⟩, none], 4⟩,
            [.class_munmap .FD_OSS_DSP 458752 4096]⟩,
         ⟨0, state_two, [.class_munmap .FD_OSS_DSP 262144 4096]⟩] := by decide

/-! ## poll: the count returned on the translated path -/

theorem is_dsp_iff (s : State) (p : pollfd) :
    is_dsp s p ↔ ∃ r, lookup s p.fd = some r ∧ r.cls = .FD_OSS_DSP := by
  unfold is_dsp
  cases h : lookup s p.fd with
  | none => simp
  | some r => simp

theorem poll_std1_direct (cap : Nat) (x x1 : Expansion) (p : pollfd)
    (h : poll_std1 cap x p = .ok x1) : x1.direct = x.direct := by
  unfold poll_std1 at h
  split at h
  · cases h; rfl
  · cases h

theorem poll_expand_step_direct (K : Consts) (E : Env) (s : State) (cap : Nat)
    (x x1 : Expansion) (p : pollfd) (h : poll_expand_step K E s cap x p = .ok x1) :
    (x.direct = false → x1.direct = false) ∧ (is_dsp s p → x1.direct = false) := by
  constructor
  · intro hx
    unfold poll_expand_step at h
    split at h
    · rw [poll_std1_direct cap x x1 p h, hx]
    · split at h
      · cases h
      · rw [poll_std1_direct cap x x1 p h, hx]
      · split at h
        · simp only at h
          split at h
          · cases h; rfl
          · cases h
        · rw [poll_std1_direct cap x x1 p h, hx]
  · intro hd
    obtain ⟨r, hr, hc⟩ := (is_dsp_iff s p).1 hd
    obtain ⟨h1, h2⟩ := fdsAt_of_lookup s p.fd r hr
    unfold poll_expand_step at h
    simp only [h1, if_false, h2, hc] at h
    split at h
    · cases h; rfl
    · cases h

theorem poll_expand_cons_ok (K : Consts) (E : Env) (s : State) (cap : Nat) (p : pollfd)
    (ps : List pollfd) (x x1 : Expansion) (out : List pollfd)
    (h : poll_expand K E s cap (p :: ps) x = .ok (x1, out)) :
    ∃ x2 out2, poll_expand_step K E s cap x p = .ok x2 ∧
      poll_expand K E s cap ps x2 = .ok (x1, out2) ∧
      out = { p with revents := 0 } :: out2 := by
  simp only [poll_expand] at h
  cases hs : poll_expand_step K E s cap x p with
  | error e => rw [hs] at h; cases h
  | ok x2 =>
    rw [hs] at h
    simp only at h
    cases hr : poll_expand K E s cap ps x2 with
    | error e => rw [hr] at h; cases h
    | ok v =>
      obtain ⟨x3, out3⟩ := v
      rw [hr] at h
      simp only [Except.ok.injEq, Prod.mk.injEq] at h
      exact ⟨x2, out3, rfl, by rw [← h.1]; exact hr, h.2.symm⟩

theorem poll_collapse_cons_ok (K : Consts) (E : Env) (s : State) (cap : Nat)
    (buf : Nat → pollfd) (p : pollfd) (ps : List pollfd) (n : Nat) (c : Int)
    (out : List pollfd) (n1 : Nat) (c1 : Int)
    (h : poll_collapse K E s cap buf (p :: ps) n c = .ok (out, n1, c1)) :
    ∃ rev n2 out2, poll_collapse_step K E s cap buf n p = .ok (rev, n2) ∧
      poll_collapse K E s cap buf ps n2 (if rev ≠ 0 then c + 1 else c) = .ok (out2, n1, c1) ∧
      out = { p with revents := rev } :: out2 := by
  simp only [poll_collapse] at h
  cases hs : poll_collapse_step K E s cap buf n p with
  | error e => rw [hs] at h; cases h
  | ok v =>
    obtain ⟨rev, n2⟩ := v
    rw [hs] at h
    simp only at h
    cases hr : poll_collapse K E s cap buf ps n2 (if rev ≠ 0 then c + 1 else c) with
    | error e => rw [hr] at h; cases h
    | ok w =>
      obtain ⟨out3, n3, c3⟩ := w
      rw [hr] at h
      simp only [Except.ok.injEq, Prod.mk.injEq] at h
      exact ⟨rev, n2, out3, rfl, by rw [← h.2.1, ← h.2.2]; exact hr, h.1.symm⟩

theorem poll_expand_direct (K : Consts) (E : Env) (s : State) (cap : Nat) :
    ∀ (l : List pollfd) (x x1 : Expansion) (out : List pollfd),
      poll_expand K E s cap l x = .ok (x1, out) →
      (x.direct = false ∨ ∃ p ∈ l, is_dsp s p) → x1.direct = false := by
  intro l
  induction l with
  | nil =>
    intro x x1 out h hd
    simp only [poll_expand, Except.ok.injEq, Prod.mk.injEq] at h
    rcases hd with hd | ⟨p, hp, _⟩
    · rw [← h.1]; exact hd
    · cases hp
  | cons p ps ih =>
    intro x x1 out h hd
    obtain ⟨x2, out2, hs, hr, _⟩ := poll_expand_cons_ok K E s cap p ps x x1 out h
    apply ih x2 x1 out2 hr
    have hstep := poll_expand_step_direct K E s cap x x2 p hs
    rcases hd with hd | ⟨q, hq, hqd⟩
    · left; exact hstep.1 hd
    · rcases List.mem_cons.1 hq with hq | hq
      · left; exact hstep.2 (hq ▸ hqd)
      · right; exact ⟨q, hq, hqd⟩

theorem poll_expand_out (K : Consts) (E : Env) (s : State) (cap : Nat) :
    ∀ (l : List pollfd) (x x1 : Expansion) (out : List pollfd),
      poll_expand K E s cap l x = .ok (x1, out) →
      out = l.map (fun p => { p with revents := 0 }) := by
  intro l
  induction l with
  | nil =>
    intro x x1 out h
    simp only [poll_expand, Except.ok.injEq, Prod.mk.injEq] at h
    rw [← h.2]; rfl
  | cons p ps ih =>
    intro x x1 out h
    obtain ⟨x2, out2, _, hr, ho⟩ := poll_expand_cons_ok K E s cap p ps x x1 out h
    rw [ho, ih x2 x1 out2 hr]
    rfl

theorem ready_count_cons (p : pollfd) (l : List pollfd) :
    ready_count (p :: l) = (if p.revents ≠ 0 then 1 else 0) + ready_count l := by
  unfold ready_count
  by_cases h : p.revents = 0
  · simp [List.filter_cons, h]
  · simp [List.filter_cons, h]; omega

theorem poll_collapse_count (K : Consts) (E : Env) (s : State) (cap : Nat)
    (buf : Nat → pollfd) :
    ∀ (l : List pollfd) (n : Nat) (c : Int) (out : List pollfd) (n1 : Nat) (c1 : Int),
      poll_collapse K E s cap buf l n c = .ok (out, n1, c1) →
      c1 = c + ready_count out ∧
      out.map (fun p => (p.fd, p.events)) = l.map (fun p => (p.fd, p.events)) := by
  intro l
  induction l with
  | nil =>
    intro n c out n1 c1 h
    simp only [poll_collapse, Except.ok.injEq, Prod.mk.injEq] at h
    obtain ⟨h1, _, h3⟩ := h
    subst h1 h3
    simp [ready_count]
  | cons p ps ih =>
    intro n c out n1 c1 h
    obtain ⟨rev, n2, out2, _, hr, ho⟩ := poll_collapse_cons_ok K E s cap buf p ps n c out n1 c1 h
    obtain ⟨ihc, ihm⟩ := ih n2 _ out2 n1 c1 hr
    subst ho
    refine ⟨?_, ?_⟩
    · rw [ready_count_cons, ihc]
      simp only
      split <;> omega
    · simp only [List.map_cons, ihm]

theorem lookup_of_fdsAt (s : State) (fd : Int) (r : fd_t) (h1 : ¬ (fd ≥ s.open_max))
    (h : fdsAt s fd = .ok (some r)) : lookup s fd = some r := by
  unfold fdsAt at h
  split at h
  · cases h
  · rename_i hr
    apply (lookup_some_iff s fd r).2
    refine ⟨by omega, by omega, ?_⟩
    split at h
    · rename_i y hy
      simp only [Except.ok.injEq] at h
      rw [hy, h]
    · cases h

/-- An entry that names no device record takes the label `_std1`. -/
theorem poll_expand_step_plain (K : Consts) (E : Env) (s : State) (cap : Nat)
    (x x1 : Expansion) (p : pollfd) (hp : ¬ is_dsp s p)
    (h : poll_expand_step K E s cap x p = .ok x1) : poll_std1 cap x p = .ok x1 := by
  unfold poll_expand_step at h
  split at h
  · exact h
  · rename_i h1
    split at h
    · cases h
    · exact h
    · rename_i r hr
      split at h
      · rename_i hc
        exact absurd ((is_dsp_iff s p).2 ⟨r, lookup_of_fdsAt s p.fd r h1 hr, hc⟩) hp
      · exact h

/-- The second loop advances as the first one did when, for a device entry,
`lib_oss_pcm_poll_prepare` returned `lib_oss_pcm_poll_fds(fd)`. -/
theorem poll_collapse_step_of_expand (K : Consts) (E : Env) (s : State) (cap : Nat)
    (buf : Nat → pollfd) (x x1 : Expansion) (p q : pollfd) (hq : q.fd = p.fd)
    (hprep : is_dsp s p →
      (E.lib_oss_pcm_poll_prepare p.fd (poll_fmode K p.events)).1 = E.lib_oss_pcm_poll_fds p.fd)
    (h : poll_expand_step K E s cap x p = .ok x1) :
    ∃ rev, poll_collapse_step K E s cap buf x.nfds1 q = .ok (rev, x1.nfds1) ∧
      (¬ is_dsp s p → rev = (buf x.nfds1).revents) := by
  have hstd : ∀ y, poll_std1 cap x p = .ok y →
      poll_std2 cap buf x.nfds1 = .ok ((buf x.nfds1).revents, y.nfds1) := by
    intro y hy
    unfold poll_std1 at hy
    unfold poll_std2
    split at hy
    · rename_i hlt
      cases hy
      simp only [hlt, if_true]
    · cases hy
  unfold poll_expand_step at h
  unfold poll_collapse_step
  rw [hq]
  by_cases h1 : p.fd ≥ s.open_max
  · simp only [h1, if_true] at h ⊢
    exact ⟨_, hstd x1 h, fun _ => rfl⟩
  · simp only [h1, if_false] at h ⊢
    cases hr : fdsAt s p.fd with
    | error e => rw [hr] at h; cases h
    | ok o =>
      cases o with
      | none =>
        simp only [hr] at h ⊢
        exact ⟨_, hstd x1 h, fun _ => rfl⟩
      | some r =>
        simp only [hr] at h ⊢
        cases hc : r.cls with
        | FD_OSS_DSP =>
          have hd : is_dsp s p := (is_dsp_iff s p).2 ⟨r, lookup_of_fdsAt s p.fd r h1 hr, hc⟩
          simp only [hc] at h ⊢
          split at h
          · cases h
            simp only
            rw [hprep hd]
            exact ⟨_, rfl, fun hn => absurd hd hn⟩
          · cases h
        | FD_OSS_MIXER =>
          simp only [hc] at h ⊢
          exact ⟨_, hstd x1 h, fun _ => rfl⟩

theorem poll_expand_cons_intro (K : Consts) (E : Env) (s : State) (cap : Nat) (p : pollfd)
    (ps : List pollfd) (x x2 x1 : Expansion) (out2 : List pollfd)
    (hs : poll_expand_step K E s cap x p = .ok x2)
    (hr : poll_expand K E s cap ps x2 = .ok (x1, out2)) :
    poll_expand K E s cap (p :: ps) x = .ok (x1, { p with revents := 0 } :: out2) := by
  simp only [poll_expand, hs, hr]

theorem poll_collapse_cons_intro (K : Consts) (E : Env) (s : State) (cap : Nat)
    (buf : Nat → pollfd) (p : pollfd) (ps : List pollfd) (n n2 n1 : Nat) (c c1 : Int)
    (rev : Nat) (out2 : List pollfd)
    (hs : poll_collapse_step K E s cap buf n p = .ok (rev, n2))
    (hr : poll_collapse K E s cap buf ps n2 (if rev ≠ 0 then c + 1 else c)
      = .ok (out2, n1, c1)) :
    poll_collapse K E s cap buf (p :: ps) n c
      = .ok ({ p with revents := rev } :: out2, n1, c1) := by
  simp only [poll_collapse, hs, hr]

theorem poll_expand_append (K : Consts) (E : Env) (s : State) (cap : Nat) :
    ∀ (l1 l2 : List pollfd) (x x1 : Expansion) (out : List pollfd),
      poll_expand K E s cap (l1 ++ l2) x = .ok (x1, out) →
      ∃ xm o1 o2, poll_expand K E s cap l1 x = .ok (xm, o1) ∧
        poll_expand K E s cap l2 xm = .ok (x1, o2) ∧ out = o1 ++ o2 := by
  intro l1
  induction l1 with
  | nil =>
    intro l2 x x1 out h
    exact ⟨x, [], out, rfl, h, rfl⟩
  | cons p ps ih =>
    intro l2 x x1 out h
    obtain ⟨x2, out2, hs, hr, ho⟩ := poll_expand_cons_ok K E s cap p (ps ++ l2) x x1 out h
    obtain ⟨xm, o1, o2, h1, h2, h3⟩ := ih l2 x2 x1 out2 hr
    refine ⟨xm, { p with revents := 0 } :: o1, o2,
      poll_expand_cons_intro K E s cap p ps x x2 xm o1 hs h1, h2, ?_⟩
    rw [ho, h3]; rfl

theorem poll_collapse_append (K : Consts) (E : Env) (s : State) (cap : Nat)
    (buf : Nat → pollfd) :
    ∀ (l1 l2 : List pollfd) (n : Nat) (c : Int) (out : List pollfd) (n1 : Nat) (c1 : Int),
      poll_collapse K E s cap buf (l1 ++ l2) n c = .ok (out, n1, c1) →
      ∃ o1 nm cm o2, poll_collapse K E s cap buf l1 n c = .ok (o1, nm, cm) ∧
        poll_collapse K E s cap buf l2 nm cm = .ok (o2, n1, c1) ∧ out = o1 ++ o2 := by
  intro l1
  induction l1 with
  | nil =>
    intro l2 n c out n1 c1 h
    exact ⟨[], n, c, out, rfl, h, rfl⟩
  | cons p ps ih =>
    intro l2 n c out n1 c1 h
    obtain ⟨rev, n2, out2, hs, hr, ho⟩ :=
      poll_collapse_cons_ok K E s cap buf p (ps ++ l2) n c out n1 c1 h
    obtain ⟨o1, nm, cm, o2, h1, h2, h3⟩ := ih l2 n2 _ out2 n1 c1 hr
    refine ⟨{ p with revents := rev } :: o1, nm, cm, o2,
      poll_collapse_cons_intro K E s cap buf p ps n n2 nm c cm rev o1 hs h1, h2, ?_⟩
    rw [ho, h3]; rfl

/-- Where the first loop ran through a list, the second loop runs through it
too and ends at the same offset, when `lib_oss_pcm_poll_prepare` returned
`lib_oss_pcm_poll_fds(fd)` for every device entry. -/
theorem poll_collapse_of_expand (K : Consts) (E : Env) (s : State) (cap : Nat)
    (buf : Nat → pollfd) (g : pollfd → pollfd) (hg : ∀ p, (g p).fd = p.fd) :
    ∀ (l : List pollfd) (x x1 : Expansion) (out : List pollfd) (c : Int),
      (∀ p ∈ l, is_dsp s p →
        (E.lib_oss_pcm_poll_prepare p.fd (poll_fmode K p.events)).1
          = E.lib_oss_pcm_poll_fds p.fd) →
      poll_expand K E s cap l x = .ok (x1, out) →
      ∃ out1 c1, poll_collapse K E s cap buf (l.map g) x.nfds1 c = .ok (out1, x1.nfds1, c1) := by
  intro l
  induction l with
  | nil =>
    intro x x1 out c _ h
    simp only [poll_expand, Except.ok.injEq, Prod.mk.injEq] at h
    rw [← h.1]
    exact ⟨[], c, rfl⟩
  | cons p ps ih =>
    intro x x1 out c hprep h
    obtain ⟨x2, out2, hs, hr, _⟩ := poll_expand_cons_ok K E s cap p ps x x1 out h
    obtain ⟨rev, hstep, _⟩ := poll_collapse_step_of_expand K E s cap buf x x2 p (g p) (hg p)
      (hprep p (List.mem_cons_self _ _)) hs
    obtain ⟨out1, c1, hrest⟩ := ih x2 x1 out2 (if rev ≠ 0 then c + 1 else c)
      (fun q hq => hprep q (List.mem_cons_of_mem _ hq)) hr
    exact ⟨_, c1, poll_collapse_cons_intro K E s cap buf (g p) (ps.map g) x.nfds1 x2.nfds1
      x1.nfds1 c c1 rev out1 hstep hrest⟩

theorem store_below (buf : Nat → pollfd) (off : Nat) (ws : List pollfd) (i : Nat)
    (h : i < off) : store buf off ws i = buf i := by
  unfold store
  have : ¬ off ≤ i := by omega
  simp only [this, if_false]

/-- One iteration of the first loop moves `nfds1` forward inside the array and
leaves the slots before it as they were, when `lib_oss_pcm_poll_prepare`
returns the number of entries it stores and the array size fits 32 bits. -/
theorem poll_expand_step_mono (K : Consts) (E : Env) (s : State) (cap : Nat)
    (x x1 : Expansion) (p : pollfd) (hcap : cap < 4294967296) (hx : x.nfds1 ≤ cap)
    (hlen : is_dsp s p →
      ((E.lib_oss_pcm_poll_prepare p.fd (poll_fmode K p.events)).2.length : Int)
        = (E.lib_oss_pcm_poll_prepare p.fd (poll_fmode K p.events)).1)
    (h : poll_expand_step K E s cap x p = .ok x1) :
    x1.nfds1 ≤ cap ∧ x.nfds1 ≤ x1.nfds1 ∧ ∀ i < x.nfds1, x1.pfds1 i = x.pfds1 i := by
  by_cases hd : is_dsp s p
  · obtain ⟨r, hr, hc⟩ := (is_dsp_iff s p).1 hd
    obtain ⟨h1, h2⟩ := fdsAt_of_lookup s p.fd r hr
    unfold poll_expand_step at h
    simp only [h1, if_false, h2, hc] at h
    have hl := hlen hd
    split at h
    · rename_i hw
      cases h
      simp only
      have hn : add_u32 x.nfds1 (E.lib_oss_pcm_poll_prepare p.fd (poll_fmode K p.events)).1
          = x.nfds1 + (E.lib_oss_pcm_poll_prepare p.fd (poll_fmode K p.events)).2.length := by
        rw [← hl]
        rcases hw with hw | hw
        · rw [hw]; unfold add_u32; simp only [List.length_nil]; omega
        · unfold add_u32; omega
      rw [hn]
      refine ⟨?_, by omega, fun i hi => store_below _ _ _ i hi⟩
      rcases hw with hw | hw
      · rw [hw]; simpa using hx
      · exact hw
    · cases h
  · have h' := poll_expand_step_plain K E s cap x x1 p hd h
    unfold poll_std1 at h'
    split at h'
    · rename_i hlt
      cases h'
      simp only
      have hn : add_u32 x.nfds1 1 = x.nfds1 + 1 := by unfold add_u32; omega
      rw [hn]
      exact ⟨by omega, by omega, fun i hi => store_below _ _ _ i hi⟩
    · cases h'

theorem poll_expand_mono (K : Consts) (E : Env) (s : State) (cap : Nat)
    (hcap : cap < 4294967296) :
    ∀ (l : List pollfd) (x x1 : Expansion) (out : List pollfd),
      x.nfds1 ≤ cap →
      (∀ p ∈ l, is_dsp s p →
        ((E.lib_oss_pcm_poll_prepare p.fd (poll_fmode K p.events)).2.length : Int)
          = (E.lib_oss_pcm_poll_prepare p.fd (poll_fmode K p.events)).1) →
      poll_expand K E s cap l x = .ok (x1, out) →
      x1.nfds1 ≤ cap ∧ x.nfds1 ≤ x1.nfds1 ∧ ∀ i < x.nfds1, x1.pfds1 i = x.pfds1 i := by
  intro l
  induction l with
  | nil =>
    intro x x1 out hx _ h
    simp only [poll_expand, Except.ok.injEq, Prod.mk.injEq] at h
    rw [← h.1]
    exact ⟨hx, le_refl _, fun _ _ => rfl⟩
  | cons p ps ih =>
    intro x x1 out hx hlen h
    obtain ⟨x2, out2, hs, hr, _⟩ := poll_expand_cons_ok K E s cap p ps x x1 out h
    obtain ⟨a1, a2, a3⟩ := poll_expand_step_mono K E s cap x x2 p hcap hx
      (hlen p (List.mem_cons_self _ _)) hs
    obtain ⟨b1, b2, b3⟩ := ih x2 x1 out2 a1 (fun q hq => hlen q (List.mem_cons_of_mem _ hq)) hr
    refine ⟨b1, by omega, fun i hi => ?_⟩
    rw [b3 i (by omega), a3 i hi]

theorem poll_collapse_length (K : Consts) (E : Env) (s : State) (cap : Nat)
    (buf : Nat → pollfd) (l : List pollfd) (n : Nat) (c : Int) (out : List pollfd)
    (n1 : Nat) (c1 : Int) (h : poll_collapse K E s cap buf l n c = .ok (out, n1, c1)) :
    out.length = l.length := by
  have := (poll_collapse_count K E s cap buf l n c out n1 c1 h).2
  simpa using congrArg List.length this

theorem split_at_entry (l : List pollfd) (k : Nat) (p : pollfd) (h : l[k]? = some p) :
    l = l.take k ++ p :: l.drop (k + 1) ∧ (l.take k).length = k := by
  obtain ⟨hk, hp⟩ := List.getElem?_eq_some.1 h
  refine ⟨?_, by simp [List.length_take]; omega⟩
  rw [← hp, List.getElem_cons_drop l k hk, List.take_append_drop]

/-- Where the two loops of `poll` do agree: in a call on the translated path
whose real poll returns a positive count, when for every device entry
`lib_oss_pcm_poll_prepare` stored and returned exactly
`lib_oss_pcm_poll_fds(fd)` entries (and the array size fits the 32-bit
counter), the second loop reaches every entry `k` at the offset `o` at which
the first loop reached it, and a non-device entry `k` was copied to slot `o`
of the list given to the real poll and comes back with the `revents` the real
poll stored for slot `o`. -/
theorem poll_second_loop_offsets (K : Consts) (E : Env) (s : State) (pfds : List pollfd)
    (timeout : Int) (out : PollOut) (ufds : List pollfd)
    (hprep : ∀ p ∈ pfds, is_dsp s p →
      (E.lib_oss_pcm_poll_prepare p.fd (poll_fmode K p.events)).1
        = E.lib_oss_pcm_poll_fds p.fd ∧
      ((E.lib_oss_pcm_poll_prepare p.fd (poll_fmode K p.events)).2.length : Int)
        = (E.lib_oss_pcm_poll_prepare p.fd (poll_fmode K p.events)).1)
    (hcap : pfds1_size s pfds.length < 4294967296)
    (hdsp : ∃ p ∈ pfds, is_dsp s p)
    (hrun : poll K E s pfds timeout = .ok out)
    (hcall : out.calls = [.real_poll ufds timeout])
    (hpos : 0 < (E._poll ufds timeout).1) :
    ∀ (k : Nat) (p : pollfd), pfds[k]? = some p →
      ∃ o, expand_offset K E s pfds k = .ok o ∧
        (∀ buf, collapse_offset K E s buf pfds k = .ok o) ∧
        (¬ is_dsp s p →
          ufds[o]? = some ⟨p.fd, p.events, 0⟩ ∧
          out.pfds[k]? = some ⟨p.fd, p.events, ((E._poll ufds timeout).2[o]?).getD 0⟩) := by
  intro k p hk
  obtain ⟨hsplit, hlenk⟩ := split_at_entry pfds k p hk
  have hp1 : ∀ q ∈ pfds, is_dsp s q →
      (E.lib_oss_pcm_poll_prepare q.fd (poll_fmode K q.events)).1
        = E.lib_oss_pcm_poll_fds q.fd := fun q hq hd => (hprep q hq hd).1
  have hp2 : ∀ q ∈ pfds, is_dsp s q →
      ((E.lib_oss_pcm_poll_prepare q.fd (poll_fmode K q.events)).2.length : Int)
        = (E.lib_oss_pcm_poll_prepare q.fd (poll_fmode K q.events)).1 :=
    fun q hq hd => (hprep q hq hd).2
  have hmem_take : ∀ q ∈ pfds.take k, q ∈ pfds := fun q hq => List.mem_of_mem_take hq
  have hmem_drop : ∀ q ∈ pfds.drop (k + 1), q ∈ pfds := fun q hq => List.mem_of_mem_drop hq
  unfold poll at hrun
  simp only at hrun
  cases hx : poll_expand K E s (pfds1_size s pfds.length) pfds (poll_init E) with
  | error e => rw [hx] at hrun; cases hrun
  | ok v =>
    obtain ⟨x, pfds0⟩ := v
    rw [hx] at hrun
    simp only at hrun
    have hdir := poll_expand_direct K E s _ pfds _ x pfds0 hx (Or.inr hdsp)
    have hout := poll_expand_out K E s _ pfds _ x pfds0 hx
    simp only [hdir, Bool.false_eq_true, if_false] at hrun
    -- the first loop, split at entry k
    have hx' : poll_expand K E s (pfds1_size s pfds.length)
        (pfds.take k ++ p :: pfds.drop (k + 1)) (poll_init E) = .ok (x, pfds0) := by
      rw [← hsplit]; exact hx
    obtain ⟨xm, o1, o2, he1, he2, _⟩ :=
      poll_expand_append K E s _ (pfds.take k) (p :: pfds.drop (k + 1)) _ x pfds0 hx'
    have hinit : (poll_init E).nfds1 = 0 := rfl
    have hoff : expand_offset K E s pfds k = .ok xm.nfds1 := by
      unfold expand_offset; rw [he1]
    have hcol : ∀ buf, collapse_offset K E s buf pfds k = .ok xm.nfds1 := by
      intro buf
      obtain ⟨out1, c1, h1⟩ := poll_collapse_of_expand K E s _ buf id (fun _ => rfl)
        (pfds.take k) _ xm o1 0 (fun q hq => hp1 q (hmem_take q hq)) he1
      rw [List.map_id, hinit] at h1
      unfold collapse_offset; rw [h1]
    refine ⟨xm.nfds1, hoff, hcol, ?_⟩
    intro hnd
    -- entry k in the first loop
    obtain ⟨x2, out2, hs, hr, _⟩ :=
      poll_expand_cons_ok K E s _ p (pfds.drop (k + 1)) xm x o2 he2
    have hstd := poll_expand_step_plain K E s _ xm x2 p hnd hs
    obtain ⟨m1, _, _⟩ := poll_expand_mono K E s _ hcap (pfds.take k) _ xm o1
      (by rw [hinit]; exact Nat.zero_le _) (fun q hq => hp2 q (hmem_take q hq)) he1
    have hx2 : x2.nfds1 = xm.nfds1 + 1 ∧
        x2.pfds1 xm.nfds1 = ⟨p.fd, p.events, 0⟩ := by
      unfold poll_std1 at hstd
      split at hstd
      · rename_i hlt
        cases hstd
        simp only
        refine ⟨by unfold add_u32; omega, ?_⟩
        simp [store]
      · cases hstd
    obtain ⟨_, m2, m3⟩ := poll_expand_mono K E s _ hcap (pfds.drop (k + 1)) x2 x out2
      (by
        have := poll_expand_step_mono K E s _ xm x2 p hcap m1
          (fun hd => absurd hd hnd) hs
        exact this.1)
      (fun q hq => hp2 q (hmem_drop q hq)) hr
    have hslot : x.pfds1 xm.nfds1 = ⟨p.fd, p.events, 0⟩ := by
      rw [m3 xm.nfds1 (by omega), hx2.2]
    have hlt : xm.nfds1 < x.nfds1 := by omega
    -- the call of the real poll
    have hu : ufds = (List.range x.nfds1).map x.pfds1 := by
      split at hrun
      · simp only [Except.ok.injEq] at hrun
        rw [← hrun] at hcall
        simp only [List.cons.injEq, Call.real_poll.injEq, and_true] at hcall
        exact hcall.symm
      · split at hrun
        · cases hrun
        · simp only [Except.ok.injEq] at hrun
          rw [← hrun] at hcall
          simp only [List.cons.injEq, Call.real_poll.injEq, and_true] at hcall
          exact hcall.symm
    rw [← hu] at hrun
    have hnle : ¬ (E._poll ufds timeout).1 ≤ 0 := by omega
    simp only [hnle, if_false] at hrun
    constructor
    · rw [hu, List.getElem?_map, List.getElem?_range hlt]
      simp only [Option.map_some', hslot]
    · split at hrun
      · cases hrun
      · rename_i outl n1 count1 hc
        simp only [Except.ok.injEq] at hrun
        rw [← hrun]
        simp only
        -- the second loop, split at entry k
        rw [hout] at hc
        have hsplit0 : pfds.map (fun q => ({ q with revents := 0 } : pollfd))
            = (pfds.take k).map (fun q => ({ q with revents := 0 } : pollfd))
              ++ ({ p with revents := 0 } : pollfd)
                :: (pfds.drop (k + 1)).map (fun q => ({ q with revents := 0 } : pollfd)) := by
          conv_lhs => rw [hsplit]
          simp only [List.map_append, List.map_cons]
        rw [hsplit0] at hc
        obtain ⟨c1l, nm, cm, c2l, hc1, hc2, hco⟩ := poll_collapse_append K E s _ _ _ _ 0 0
          outl n1 count1 hc
        obtain ⟨out1, c1, h1⟩ := poll_collapse_of_expand K E s _
          (store_revents x.pfds1 x.nfds1 (E._poll ufds timeout).2)
          (fun q => ({ q with revents := 0 } : pollfd)) (fun _ => rfl)
          (pfds.take k) _ xm o1 0 (fun q hq => hp1 q (hmem_take q hq)) he1
        rw [hinit, hc1] at h1
        simp only [Except.ok.injEq, Prod.mk.injEq] at h1
        obtain ⟨_, hnm, _⟩ := h1
        subst hnm
        obtain ⟨rev, n2, out3, hcs, _, hco2⟩ := poll_collapse_cons_ok K E s _ _ _ _ _ _ _ _ _ hc2
        obtain ⟨rev1, hstep, hrev⟩ := poll_collapse_step_of_expand K E s _
          (store_revents x.pfds1 x.nfds1 (E._poll ufds timeout).2) xm x2 p
          ({ p with revents := 0 } : pollfd) rfl (fun hd => absurd hd hnd) hs
        rw [hcs] at hstep
        simp only [Except.ok.injEq, Prod.mk.injEq] at hstep
        have hrv : rev = ((E._poll ufds timeout).2[xm.nfds1]?).getD 0 := by
          rw [hstep.1, hrev hnd]
          unfold store_revents
          simp only [hlt, if_true]
          cases (E._poll ufds timeout).2[xm.nfds1]? with
          | none => simp [hslot]
          | some r => simp
        have hl1 : c1l.length = k := by
          rw [poll_collapse_length K E s _ _ _ _ _ _ _ _ hc1, List.length_map, hlenk]
        rw [hco, hco2, List.getElem?_append_right (by omega), hl1, Nat.sub_self,
          List.getElem?_cons_zero, hrv]

/-- The agreement of the two loops at a device entry with two poll descriptors
followed by the plain descriptor `5`: entry `1` is read at offset `2`, where
it was written. -/
theorem poll_second_loop_offsets_witness :
    ∃ o, expand_offset linux env_ready state_dsp [⟨3, 1, 9⟩, ⟨5, 1, 9⟩] 1 = .ok o ∧
      (∀ buf, collapse_offset linux env_ready state_dsp buf [⟨3, 1, 9⟩, ⟨5, 1, 9⟩] 1 = .ok o) ∧
      (¬ is_dsp state_dsp ⟨5, 1, 9⟩ →
        [(⟨10, 1, 0⟩ : pollfd), ⟨11, 4, 0⟩, ⟨5, 1, 0⟩][o]? = some ⟨5, 1, 0⟩ ∧
        (⟨2, [⟨3, 1, 1⟩, ⟨5, 1, 1⟩],
            [.real_poll [⟨10, 1, 0⟩, ⟨11, 4, 0⟩, ⟨5, 1, 0⟩] 0]⟩ : PollOut).pfds[1]?
          = some ⟨5, 1,
              ((env_ready._poll [⟨10, 1, 0⟩, ⟨11, 4, 0⟩, ⟨5, 1, 0⟩] 0).2[o]?).getD 0⟩) :=
  poll_second_loop_offsets linux env_ready state_dsp [⟨3, 1, 9⟩, ⟨5, 1, 9⟩] 0
    ⟨2, [⟨3, 1, 1⟩, ⟨5, 1, 1⟩], [.real_poll [⟨10, 1, 0⟩, ⟨11, 4, 0⟩, ⟨5, 1, 0⟩] 0]⟩
    [⟨10, 1, 0⟩, ⟨11, 4, 0⟩, ⟨5, 1, 0⟩]
    (by decide) (by decide) ⟨⟨3, 1, 9⟩, by decide, by decide⟩ (by decide) rfl (by decide)
    1 ⟨5, 1, 9⟩ rfl

/-! ## What holds next to the failing inputs -/

theorem munmap_scan_none (addr : Nat) :
    ∀ (l : List (Option fd_t)) (base : Nat),
      (∀ (i : Nat) (r : fd_t), l[i]? = some (some r) → r.mmap_area ≠ addr) →
      munmap_scan addr l base = none := by
  intro l
  induction l with
  | nil => intro base _; rfl
  | cons x rest ih =>
    intro base h
    have hrest : munmap_scan addr rest (base + 1) = none :=
      ih (base + 1) (fun i r hi => h (i + 1) r (by rw [List.getElem?_cons_succ]; exact hi))
    cases x with
    | none => simp only [munmap_scan, hrest]
    | some r0 =>
      have := h 0 r0 (by simp)
      simp only [munmap_scan, this, if_false, hrest]

/-- An address that no record stores is forwarded to the real munmap and the
table is left alone; this covers every non-null address that is not a stored
mapping, and the null address only when every record has a mapping. -/
theorem munmap_forwards_unowned (E : Env) (s : State) (addr len : Nat)
    (h : ∀ (i : Nat) (r : fd_t), s.fds[i]? = some (some r) → r.mmap_area ≠ addr) :
    munmap E s addr len = ⟨E._munmap addr len, s, [.real_munmap addr len]⟩ := by
  unfold munmap
  rw [munmap_scan_none addr s.fds 0 h]

/-- A negative result of `lib_oss_pcm_select_result` for a descriptor with
exceptional interest: its exceptional bit stays set, its read and write bits
are cleared, and it is counted once. -/
theorem select_result_dsp_negative (K : Consts) (c : Caller) (fd : Nat) (result : Int)
    (hneg : result < 0) (he : isset fd c.efds = true) :
    ∃ c1, select_result_dsp K c fd (isset fd c.rfds) (isset fd c.wfds) true result = .ok c1 ∧
      isset fd c1.rfds = false ∧ isset fd c1.wfds = false ∧ isset fd c1.efds = true ∧
      c1.count1 = c.count1 + 1 := by
  obtain ⟨rf, wf, ef, cnt⟩ := c
  cases ef with
  | none => simp [isset] at he
  | some ef =>
    simp only [isset, decide_eq_true_eq] at he
    cases rf with
    | none =>
      cases wf with
      | none => simp [select_result_dsp, select_finish, fd_upd, isset, hneg]
      | some wf =>
        by_cases hw : fd ∈ wf <;>
          simp [select_result_dsp, select_finish, fd_upd, isset, hneg, hw]
    | some rf =>
      cases wf with
      | none =>
        by_cases hr : fd ∈ rf <;>
          simp [select_result_dsp, select_finish, fd_upd, isset, hneg, hr]
      | some wf =>
        by_cases hr : fd ∈ rf <;> by_cases hw : fd ∈ wf <;>
          simp [select_result_dsp, select_finish, fd_upd, isset, hneg, hr, hw]

/-- A negative result of `lib_oss_pcm_select_prepare` makes the first loop of
`select` stop with `return -1`. -/
theorem select_prepare_step_negative (K : Consts) (E : Env) (s : State)
    (rfds wfds efds : Option FdSet) (x : Working) (fd : Nat) (r : fd_t)
    (hint : (isset fd rfds || isset fd wfds || isset fd efds) = true)
    (hreg : lookup s (fd : Int) = some r) (hcls : r.cls = .FD_OSS_DSP)
    (hneg : (E.lib_oss_pcm_select_prepare fd
        (select_fmode K (isset fd rfds) (isset fd wfds)) x.rfds1 x.wfds1
        (if isset fd efds then x.efds1 else none)).1 < 0) :
    select_prepare_step K E s rfds wfds efds x fd = .ok none := by
  obtain ⟨_, h2⟩ := fdsAt_of_lookup s fd r hreg
  unfold select_prepare_step
  simp only [hint, Bool.not_true, Bool.false_eq_true, if_false, h2, hcls, hneg, if_true]

/-- When the first loop of `select` stops with `return -1`, `select` returns
`-1` with the caller's sets untouched and the real select not called. -/
theorem select_returns_error_on_abort (K : Consts) (E : Env) (s : State) (nfds : Int)
    (rfds wfds efds : Option FdSet) (timeout : Timeout)
    (h : select_prepare K E s rfds wfds efds (List.range nfds.toNat)
      { rfds1 := rfds.getD ∅, wfds1 := wfds.getD ∅, efds1 := efds, nfds1 := nfds,
        direct := true } = .ok none) :
    select K E s nfds rfds wfds efds timeout = .ok ⟨-1, rfds, wfds, efds, []⟩ := by
  unfold select
  simp only [h]

theorem fdsAt_in_range (s : State) (fd : Int) (h0 : 0 ≤ fd) (h1 : fd < s.open_max) :
    ∃ o, fdsAt s fd = .ok o ∧ lookup s fd = o := by
  have hlt : fd.toNat < s.fds.length := by unfold State.open_max at h1; omega
  have hr : ¬ (fd < 0 ∨ fd ≥ s.open_max) := by omega
  refine ⟨s.fds[fd.toNat], ?_, ?_⟩
  · unfold fdsAt
    simp only [hr, if_false, List.getElem?_eq_getElem hlt]
  · unfold lookup
    simp only [hr, if_false, List.getElem?_eq_getElem hlt]
    cases s.fds[fd.toNat] <;> rfl

theorem poll_expand_step_eq_std1 (K : Consts) (E : Env) (s : State) (cap : Nat)
    (x : Expansion) (p : pollfd) (hp : ¬ is_dsp s p) (h0 : 0 ≤ p.fd) :
    poll_expand_step K E s cap x p = poll_std1 cap x p := by
  unfold poll_expand_step
  by_cases h1 : p.fd ≥ s.open_max
  · simp only [h1, if_true]
  · simp only [h1, if_false]
    obtain ⟨o, ho, hl⟩ := fdsAt_in_range s p.fd h0 (by omega)
    rw [ho]
    cases o with
    | none => rfl
    | some r =>
      simp only
      cases hc : r.cls with
      | FD_OSS_DSP => exact absurd ((is_dsp_iff s p).2 ⟨r, hl, hc⟩) hp
      | FD_OSS_MIXER => rfl

theorem poll_expand_plain (K : Consts) (E : Env) (s : State) (cap : Nat)
    (hcap : cap < 4294967296) :
    ∀ (l : List pollfd) (x : Expansion), x.direct = true →
      (∀ p ∈ l, ¬ is_dsp s p ∧ 0 ≤ p.fd) → x.nfds1 + l.length ≤ cap →
      ∃ x1, poll_expand K E s cap l x = .ok (x1, l.map (fun p => { p with revents := 0 })) ∧
        x1.direct = true := by
  intro l
  induction l with
  | nil => intro x hx _ _; exact ⟨x, rfl, hx⟩
  | cons p ps ih =>
    intro x hx hl hn
    obtain ⟨hp, h0⟩ := hl p (List.mem_cons_self _ _)
    simp only [List.length_cons] at hn
    have hlt : x.nfds1 < cap := by omega
    have hstep : poll_expand_step K E s cap x p
        = .ok { nfds1 := x.nfds1 + 1,
                pfds1 := store x.pfds1 x.nfds1 [{ fd := p.fd, events := p.events, revents := 0 }],
                direct := x.direct } := by
      rw [poll_expand_step_eq_std1 K E s cap x p hp h0]
      unfold poll_std1
      have : add_u32 x.nfds1 1 = x.nfds1 + 1 := by unfold add_u32; omega
      simp only [hlt, if_true, this]
    obtain ⟨x1, h1, h2⟩ := ih
      { nfds1 := x.nfds1 + 1,
        pfds1 := store x.pfds1 x.nfds1 [{ fd := p.fd, events := p.events, revents := 0 }],
        direct := x.direct } hx
      (fun q hq => hl q (List.mem_cons_of_mem _ hq)) (by show x.nfds1 + 1 + ps.length ≤ cap; omega)
    exact ⟨x1, poll_expand_cons_intro K E s cap p ps x _ x1 _ hstep h1, h2⟩

/-- On a list whose descriptors are all non-negative and none of which carries
a device record, `poll` calls the real poll once, on the caller's array with
every `revents` cleared and the caller's timeout, and hands back its count and
the `revents` it stored (the array `pfds1` being large enough for the copy). -/
theorem poll_passthrough (K : Consts) (E : Env) (s : State) (pfds : List pollfd)
    (timeout : Int)
    (hplain : ∀ p ∈ pfds, ¬ is_dsp s p ∧ 0 ≤ p.fd)
    (hsize : pfds.length ≤ pfds1_size s pfds.length)
    (hcap : pfds1_size s pfds.length < 4294967296) :
    poll K E s pfds timeout
      = .ok ⟨(E._poll (pfds.map (fun p => { p with revents := 0 })) timeout).1,
          put_revents (pfds.map (fun p => { p with revents := 0 }))
            (E._poll (pfds.map (fun p => { p with revents := 0 })) timeout).2,
          [.real_poll (pfds.map (fun p => { p with revents := 0 })) timeout]⟩ := by
  obtain ⟨x1, h1, h2⟩ := poll_expand_plain K E s _ hcap pfds (poll_init E) rfl hplain
    (by simpa [poll_init] using hsize)
  unfold poll
  simp only [h1, h2, if_true]

theorem select_prepare_step_plain (K : Consts) (E : Env) (s : State)
    (rfds wfds efds : Option FdSet) (x : Working) (fd : Nat)
    (h : (isset fd rfds || isset fd wfds || isset fd efds) = true →
      (fd : Int) < s.open_max ∧ ¬ is_dsp s ⟨fd, 0, 0⟩) :
    select_prepare_step K E s rfds wfds efds x fd = .ok (some x) := by
  unfold select_prepare_step
  by_cases hint : (isset fd rfds || isset fd wfds || isset fd efds) = true
  · obtain ⟨h1, hp⟩ := h hint
    obtain ⟨o, ho, hl⟩ := fdsAt_in_range s fd (by omega) h1
    simp only [hint, Bool.not_true, Bool.false_eq_true, if_false, ho]
    cases o with
    | none => rfl
    | some r =>
      simp only
      cases hc : r.cls with
      | FD_OSS_DSP => exact absurd ((is_dsp_iff s ⟨fd, 0, 0⟩).2 ⟨r, hl, hc⟩) hp
      | FD_OSS_MIXER => rfl
  · simp only [Bool.not_eq_true] at hint
    simp only [hint, Bool.not_false, if_true]

theorem select_prepare_plain (K : Consts) (E : Env) (s : State)
    (rfds wfds efds : Option FdSet) :
    ∀ (l : List Nat) (x : Working),
      (∀ fd ∈ l, (isset fd rfds || isset fd wfds || isset fd efds) = true →
        (fd : Int) < s.open_max ∧ ¬ is_dsp s ⟨fd, 0, 0⟩) →
      select_prepare K E s rfds wfds efds l x = .ok (some x) := by
  intro l
  induction l with
  | nil => intro x _; rfl
  | cons fd rest ih =>
    intro x h
    simp only [select_prepare,
      select_prepare_step_plain K E s rfds wfds efds x fd (h fd (List.mem_cons_self _ _))]
    exact ih x (fun q hq => h q (List.mem_cons_of_mem _ hq))

/-- When every descriptor below `nfds` with an interest bit lies inside the
table and carries no device record, `select` calls the real select once, on
the caller's own sets, `nfds` and timeout, and hands back its count and sets. -/
theorem select_passthrough (K : Consts) (E : Env) (s : State) (nfds : Int)
    (rfds wfds efds : Option FdSet) (timeout : Timeout)
    (hplain : ∀ fd : Nat, (fd : Int) < nfds →
      (isset fd rfds || isset fd wfds || isset fd efds) = true →
      (fd : Int) < s.open_max ∧ ¬ is_dsp s ⟨fd, 0, 0⟩) :
    select K E s nfds rfds wfds efds timeout
      = .ok ⟨(E._select nfds rfds wfds efds timeout).1,
          rfds.map (fun _ => (E._select nfds rfds wfds efds timeout).2.1),
          wfds.map (fun _ => (E._select nfds rfds wfds efds timeout).2.2.1),
          efds.map (fun _ => (E._select nfds rfds wfds efds timeout).2.2.2),
          [.real_select nfds rfds wfds efds timeout]⟩ := by
  unfold select
  have := select_prepare_plain K E s rfds wfds efds (List.range nfds.toNat)
    { rfds1 := rfds.getD ∅, wfds1 := wfds.getD ∅, efds1 := efds, nfds1 := nfds, direct := true }
    (fun fd hfd => hplain fd (by
      have := List.mem_range.1 hfd
      omega))
  simp only [this, if_true]

theorem is_dsp_fd (s : State) (p q : pollfd) (h : q.fd = p.fd) : is_dsp s q ↔ is_dsp s p := by
  unfold is_dsp; rw [h]

theorem mem_dsp_fds (s : State) (p : pollfd) (h : is_dsp s p) : p.fd ∈ dsp_fds s := by
  obtain ⟨r, hr, _⟩ := (is_dsp_iff s p).1 h
  obtain ⟨h0, h1, _⟩ := (lookup_some_iff s p.fd r).1 hr
  unfold dsp_fds
  simp only [Finset.mem_image, Finset.mem_filter, Finset.mem_range]
  have hcast : ((p.fd.toNat : Nat) : Int) = p.fd := by omega
  refine ⟨p.fd.toNat, ⟨?_, ?_⟩, hcast⟩
  · unfold State.open_max at h1; omega
  · exact (is_dsp_fd s p ⟨(p.fd.toNat : Int), 0, 0⟩ hcast).2 h

/-- The first loop runs through a list without leaving `pfds1` when the slots
its entries take fit between `nfds1` and the end of the array. -/
theorem poll_expand_fits (K : Consts) (E : Env) (s : State) (cap : Nat)
    (hcap : cap < 4294967296) :
    ∀ (l : List pollfd) (x : Expansion),
      (∀ p ∈ l, is_dsp s p →
        (E.lib_oss_pcm_poll_prepare p.fd (poll_fmode K p.events)).1
          = E.lib_oss_pcm_poll_fds p.fd ∧
        ((E.lib_oss_pcm_poll_prepare p.fd (poll_fmode K p.events)).2.length : Int)
          = (E.lib_oss_pcm_poll_prepare p.fd (poll_fmode K p.events)).1) →
      (∀ p ∈ l, 0 ≤ p.fd) →
      (x.nfds1 : Int) + (l.map (slots E s)).sum ≤ cap →
      ∃ x1 out, poll_expand K E s cap l x = .ok (x1, out) := by
  intro l
  induction l with
  | nil => intro x _ _ _; exact ⟨x, [], rfl⟩
  | cons p ps ih =>
    intro x hprep hnn hfit
    have hrest : 0 ≤ (ps.map (slots E s)).sum := by
      apply List.sum_nonneg
      intro v hv
      obtain ⟨q, hq, hqv⟩ := List.mem_map.1 hv
      rw [← hqv]
      unfold slots
      split
      · rename_i hd
        have := hprep q (List.mem_cons_of_mem _ hq) hd
        omega
      · omega
    simp only [List.map_cons, List.sum_cons] at hfit
    by_cases hd : is_dsp s p
    · obtain ⟨r, hr, hc⟩ := (is_dsp_iff s p).1 hd
      obtain ⟨h1, h2⟩ := fdsAt_of_lookup s p.fd r hr
      obtain ⟨e1, e2⟩ := hprep p (List.mem_cons_self _ _) hd
      have hsl : slots E s p = E.lib_oss_pcm_poll_fds p.fd := by unfold slots; simp only [hd, if_true]
      have hw : (E.lib_oss_pcm_poll_prepare p.fd (poll_fmode K p.events)).2 = [] ∨
          x.nfds1 + (E.lib_oss_pcm_poll_prepare p.fd (poll_fmode K p.events)).2.length ≤ cap := by
        right; omega
      have hstep : poll_expand_step K E s cap x p
          = .ok { nfds1 := add_u32 x.nfds1
                    (E.lib_oss_pcm_poll_prepare p.fd (poll_fmode K p.events)).1,
                  pfds1 := store x.pfds1 x.nfds1
                    (E.lib_oss_pcm_poll_prepare p.fd (poll_fmode K p.events)).2,
                  direct := false } := by
        unfold poll_expand_step
        simp only [h1, if_false, h2, hc, hw, if_true]
      have hn : (add_u32 x.nfds1 (E.lib_oss_pcm_poll_prepare p.fd (poll_fmode K p.events)).1 : Int)
          = x.nfds1 + E.lib_oss_pcm_poll_fds p.fd := by
        unfold add_u32; omega
      obtain ⟨x1, out, h⟩ := ih
        { nfds1 := add_u32 x.nfds1
            (E.lib_oss_pcm_poll_prepare p.fd (poll_fmode K p.events)).1,
          pfds1 := store x.pfds1 x.nfds1
            (E.lib_oss_pcm_poll_prepare p.fd (poll_fmode K p.events)).2,
          direct := false }
        (fun q hq => hprep q (List.mem_cons_of_mem _ hq))
        (fun q hq => hnn q (List.mem_cons_of_mem _ hq))
        (by
          show ((add_u32 x.nfds1
            (E.lib_oss_pcm_poll_prepare p.fd (poll_fmode K p.events)).1 : Nat) : Int) + _ ≤ _
          rw [hn]; omega)
      exact ⟨x1, _, poll_expand_cons_intro K E s cap p ps x _ x1 out hstep h⟩
    · have hsl : slots E s p = 1 := by unfold slots; simp only [hd, if_false]
      have hlt : x.nfds1 < cap := by omega
      have hstep : poll_expand_step K E s cap x p
          = .ok { nfds1 := x.nfds1 + 1,
                  pfds1 := store x.pfds1 x.nfds1
                    [{ fd := p.fd, events := p.events, revents := 0 }],
                  direct := x.direct } := by
        rw [poll_expand_step_eq_std1 K E s cap x p hd (hnn p (List.mem_cons_self _ _))]
        unfold poll_std1
        have : add_u32 x.nfds1 1 = x.nfds1 + 1 := by unfold add_u32; omega
        simp only [hlt, if_true, this]
      obtain ⟨x1, out, h⟩ := ih
        { nfds1 := x.nfds1 + 1,
          pfds1 := store x.pfds1 x.nfds1 [{ fd := p.fd, events := p.events, revents := 0 }],
          direct := x.direct }
        (fun q hq => hprep q (List.mem_cons_of_mem _ hq))
        (fun q hq => hnn q (List.mem_cons_of_mem _ hq))
        (by show ((x.nfds1 + 1 : Nat) : Int) + _ ≤ _; push_cast; omega)
      exact ⟨x1, _, poll_expand_cons_intro K E s cap p ps x _ x1 out hstep h⟩

theorem slots_sum_le (E : Env) (s : State) :
    ∀ (l : List pollfd),
      (l.map (slots E s)).sum
        ≤ (l.length : Int)
          + (((l.filter (fun p => decide (is_dsp s p))).map (fun p => p.fd)).map
              (fun fd => E.lib_oss_pcm_poll_fds fd)).sum := by
  intro l
  induction l with
  | nil => simp
  | cons p ps ih =>
    by_cases hd : is_dsp s p
    · have hsl : slots E s p = E.lib_oss_pcm_poll_fds p.fd := by
        unfold slots; simp only [hd, if_true]
      simp only [List.map_cons, List.sum_cons, List.length_cons, List.filter_cons, hd,
        decide_True, if_true, hsl]
      push_cast
      omega
    · have hsl : slots E s p = 1 := by unfold slots; simp only [hd, if_false]
      simp only [List.map_cons, List.sum_cons, List.length_cons, List.filter_cons, hd,
        decide_False, hsl, Bool.false_eq_true, if_false]
      push_cast
      omega

/-- A list that names each device descriptor at most once stays inside
`pfds1`: when `lib_oss_pcm_poll_prepare` stores and returns exactly
`lib_oss_pcm_poll_fds(fd)` entries, `poll_fds_add` is the sum of
`lib_oss_pcm_poll_fds` over the registered device descriptors (each count
non-negative), and no descriptor of the list is negative, the first loop of
`poll` runs to its end. -/
theorem poll_expand_within_pfds1 (K : Consts) (E : Env) (s : State) (pfds : List pollfd)
    (hprep : ∀ p ∈ pfds, is_dsp s p →
      (E.lib_oss_pcm_poll_prepare p.fd (poll_fmode K p.events)).1
        = E.lib_oss_pcm_poll_fds p.fd ∧
      ((E.lib_oss_pcm_poll_prepare p.fd (poll_fmode K p.events)).2.length : Int)
        = (E.lib_oss_pcm_poll_prepare p.fd (poll_fmode K p.events)).1)
    (hsum : s.poll_fds_add = poll_fds_total E s)
    (hcount : ∀ fd ∈ dsp_fds s, 0 ≤ E.lib_oss_pcm_poll_fds fd)
    (hdist : ((pfds.filter (fun p => decide (is_dsp s p))).map (fun p => p.fd)).Nodup)
    (hnn : ∀ p ∈ pfds, 0 ≤ p.fd)
    (hfit : (pfds.length : Int) + s.poll_fds_add + 16 < 4294967296) :
    ∃ x out, poll_expand K E s (pfds1_size s pfds.length) pfds (poll_init E) = .ok (x, out) := by
  have htot : 0 ≤ poll_fds_total E s := Finset.sum_nonneg hcount
  have hsub : (((pfds.filter (fun p => decide (is_dsp s p))).map (fun p => p.fd)).map
      (fun fd => E.lib_oss_pcm_poll_fds fd)).sum ≤ poll_fds_total E s := by
    rw [← List.sum_toFinset _ hdist]
    unfold poll_fds_total
    apply Finset.sum_le_sum_of_subset_of_nonneg
    · intro fd hfd
      simp only [List.mem_toFinset, List.mem_map, List.mem_filter, decide_eq_true_eq] at hfd
      obtain ⟨p, ⟨_, hp⟩, hpf⟩ := hfd
      rw [← hpf]
      exact mem_dsp_fds s p hp
    · intro fd hfd _
      exact hcount fd hfd
  have hcapv : (pfds1_size s pfds.length : Int) = (pfds.length : Int) + s.poll_fds_add + 16 := by
    unfold pfds1_size
    rw [hsum] at hfit ⊢
    omega
  have hcap : pfds1_size s pfds.length < 4294967296 := by omega
  apply poll_expand_fits K E s _ hcap pfds (poll_init E) hprep hnn
  have := slots_sum_le E s pfds
  have h0 : ((poll_init E).nfds1 : Int) = 0 := rfl
  rw [h0, hcapv, hsum]
  omega

end AlsaOss
